import Mathlib

/-!
Verification of the point-cloud I/O layer of this repository
(python/kiss_matcher/io_utils.py).

Shallow embedding conventions:
* a text file is modelled by the list of its lines, each line being the
  list of its characters (type Line below); the trailing newline of each
  line is not part of the list, matching what the source obtains after
  calling strip on a line read from the file;
* a binary payload is modelled by the list of its bytes, each byte a Nat;
* Python floats are modelled as rationals; a 4-byte IEEE-754 binary32
  group is decoded exactly into a rational (the infinity and NaN patterns,
  exponent 255, are collapsed to 0: no claim here distinguishes them,
  every statement about such values only compares equal bit patterns);
* a Python function that can raise is modelled with Except String, the
  string naming the exception; a header-scanning loop that would spin
  forever at end of file is modelled with Option, none meaning the loop
  never exits (see the step machines near the end of the definitions).
-/

abbrev Line := List Char

/- The Batteries library seals the rational operations against unfolding;
concrete evaluation of the readers in witnesses needs them unsealed for
the elaborator (the kernel is unaffected either way). -/
attribute [local semireducible] Rat.add Rat.mul Rat.inv Rat.sub

instance {e a : Type} [DecidableEq e] [DecidableEq a] : DecidableEq (Except e a) := fun x y =>
  match x, y with
  | .error u, .error v =>
    if h : u = v then isTrue (by rw [h]) else isFalse (fun c => h (Except.error.inj c))
  | .error _, .ok _ => isFalse (fun c => Except.noConfusion c)
  | .ok _, .error _ => isFalse (fun c => Except.noConfusion c)
  | .ok u, .ok v =>
    if h : u = v then isTrue (by rw [h]) else isFalse (fun c => h (Except.ok.inj c))

/-- Character of a decimal digit d (d below 10): the ASCII digit. -/
def digitChar (d : Nat) : Char := Char.ofNat (48 + d)

/-- Python str.strip for default whitespace: drop leading and trailing
whitespace characters. -/
def pyStrip (cs : Line) : Line :=
  (((cs.dropWhile Char.isWhitespace).reverse).dropWhile Char.isWhitespace).reverse

/-- Worker for pySplit: cur holds the characters of the token being built,
in reverse order. -/
def splitGo : List Char → List Char → List (List Char)
  | [], cur => if cur.isEmpty then [] else [cur.reverse]
  | c :: cs, cur =>
    if c.isWhitespace then
      if cur.isEmpty then splitGo cs [] else cur.reverse :: splitGo cs []
    else splitGo cs (c :: cur)

/-- Python str.split with no argument: split on runs of whitespace and
drop empty tokens. -/
def pySplit (cs : Line) : List Line := splitGo cs []

/-- Python str.startswith on character lists: does s start with pfx. -/
def startsWithL : Line → Line → Bool
  | _, [] => true
  | [], _ :: _ => false
  | c :: s, p :: ps => c == p && startsWithL s ps

/-- Python str.upper restricted to ASCII letters, which is all the source
ever feeds it (the words ascii and binary from the DATA header line). -/
def pyUpper (cs : Line) : Line :=
  cs.map (fun c => if 97 ≤ c.toNat ∧ c.toNat ≤ 122 then Char.ofNat (c.toNat - 32) else c)

/-- Value of a digit string read most significant digit first.  No
validation: used only after the digits have been checked. -/
def natVal (cs : Line) : Nat :=
  cs.foldl (fun a c => 10 * a + (c.toNat - 48)) 0

/-- Parse a nonempty all-digit string as a natural number. -/
def parseNatChars (cs : Line) : Option Nat :=
  if cs.all Char.isDigit && !cs.isEmpty then some (natVal cs) else none

/-- Python int() on the tokens that occur in these file headers: an
optional sign followed by decimal digits. -/
def pyInt (cs : Line) : Option ℤ :=
  match cs with
  | [] => none
  | c :: rest =>
    if c = '-' then (parseNatChars rest).map (fun n => -(n : ℤ))
    else if c = '+' then (parseNatChars rest).map (fun n => (n : ℤ))
    else (parseNatChars (c :: rest)).map (fun n => (n : ℤ))

/-- Unsigned part of a Python float literal: digits, optionally followed
by a dot and further digits.  This is the subset of the float() grammar
that the formats at hand produce; exponents never occur in these files. -/
def pyFloatMag (cs : Line) : Option ℚ :=
  let ip := cs.takeWhile Char.isDigit
  let rest := cs.dropWhile Char.isDigit
  match rest with
  | [] => if ip.isEmpty then none else some ((natVal ip : ℚ))
  | d :: fp =>
    if d = '.' then
      if fp.all Char.isDigit && (!ip.isEmpty || !fp.isEmpty) then
        some ((natVal ip : ℚ) + (natVal fp : ℚ) / 10 ^ fp.length)
      else none
    else none

/-- Python float() on the decimal tokens these files contain. -/
def pyFloat (cs : Line) : Option ℚ :=
  match cs with
  | [] => none
  | c :: rest =>
    if c = '-' then (pyFloatMag rest).map (fun q => -q)
    else if c = '+' then pyFloatMag rest
    else pyFloatMag (c :: rest)

/-- Digits of n in base 10, most significant first, with fuel (fuel at
least n makes the result total); accumulator holds digits already
produced. -/
def natToCharsAux : Nat → Nat → Line → Line
  | 0, _, acc => acc
  | fuel + 1, n, acc =>
    if n = 0 then acc else natToCharsAux fuel (n / 10) (digitChar (n % 10) :: acc)

/-- Decimal rendering of a natural number, as Python str produces it. -/
def natToChars (n : Nat) : Line :=
  if n = 0 then ['0'] else natToCharsAux n n []

/-- Left-pad a digit string with zeros to width k (Python zero padding in
a fixed-precision format). -/
def padZeros (k : Nat) (cs : Line) : Line :=
  List.replicate (k - cs.length) '0' ++ cs

/-- The text Python emits for a coordinate under the fixed six-decimal
format used by write_pcd.  The coordinate is a rational here, so rounding
to six decimals is rounding of the exact value (round gives the nearest
integer; the source rounds the nearest double, which agrees to well below
the tolerance any claim mentions).  A negative zero is rendered without
the sign, which no claim observes. -/
def fmt6 (q : ℚ) : Line :=
  let n : ℤ := round (q * 1000000)
  let mag := natToChars (n.natAbs / 1000000) ++
    '.' :: padZeros 6 (natToChars (n.natAbs % 1000000))
  if n < 0 then '-' :: mag else mag

/-- The rational a coordinate becomes after being written by write_pcd
and parsed back: the nearest multiple of one millionth. -/
def apx6 (q : ℚ) : ℚ := ((round (q * 1000000) : ℤ) : ℚ) / 1000000

/-- Bit pattern of 4 bytes read little endian, least significant byte
first, as struct.unpack with format <f sees it. -/
def bytesToNatLE (bs : List Nat) : Nat :=
  bs.foldr (fun b acc => b + 256 * acc) 0

/-- Bit pattern of 4 bytes read big endian, as struct.unpack with format
>f sees it. -/
def bytesToNatBE (bs : List Nat) : Nat :=
  bs.foldl (fun acc b => acc * 256 + b) 0

/-- Exact rational value of an IEEE-754 binary32 bit pattern.  Finite
values are decoded exactly; the exponent-255 patterns (infinities and
NaNs) are collapsed to 0, a choice no claim below can observe. -/
def f32ValQ (u : Nat) : ℚ :=
  let s : Nat := u / 2 ^ 31 % 2
  let e : Nat := u / 2 ^ 23 % 2 ^ 8
  let m : Nat := u % 2 ^ 23
  let sgn : ℚ := if s = 1 then -1 else 1
  if e = 255 then 0
  else if e = 0 then sgn * (m : ℚ) / 2 ^ 149
  else sgn * (((2 ^ 23 + m : Nat) : ℚ) * (2 : ℚ) ^ e) / 2 ^ 150

/-- Little-endian float32 decode of a 4-byte group. -/
def decLE (bs : List Nat) : ℚ := f32ValQ (bytesToNatLE bs)

/-- Big-endian float32 decode of a 4-byte group. -/
def decBE (bs : List Nat) : ℚ := f32ValQ (bytesToNatBE bs)

/-- Index of the first occurrence of name in a list (Python list.index,
total here: callers guard with membership as the source does). -/
def idxOfGo (name : Line) : List Line → Nat
  | [] => 0
  | f :: fs => if f = name then 0 else idxOfGo name fs + 1

/-- The source pattern: fields.index(name) if name in fields else dflt. -/
def fieldIdx (fields : List Line) (name : Line) (dflt : Nat) : Nat :=
  if name ∈ fields then idxOfGo name fields else dflt

/-- Evaluate f on every element; any failure fails the whole list, as a
Python comprehension raising does. -/
def mapOpt {α : Type} (f : Line → Option α) : List Line → Option (List α)
  | [] => some []
  | x :: xs =>
    match f x, mapOpt f xs with
    | some v, some vs => some (v :: vs)
    | _, _ => none

/-! ## PCD reader (read_pcd) -/

/-- The header dictionary read_pcd builds: each keyword that has been seen
maps to its parsed value, mirroring the Python dict header_info. -/
structure PcdHeader where
  version : Option Line := none
  fields : Option (List Line) := none
  size : Option (List ℤ) := none
  type : Option (List Line) := none
  count : Option (List ℤ) := none
  width : Option ℤ := none
  height : Option ℤ := none
  viewpoint : Option (List ℚ) := none
  points : Option ℤ := none
  data : Option Line := none
deriving DecidableEq

def emptyPcdHeader : PcdHeader := {}

/-- One iteration of the read_pcd header loop on one raw line: strip it,
then run the keyword chain.  The Bool is true when the loop breaks (a
DATA line).  Errors are the exceptions the Python raises: an IndexError
when split()[1] is missing, a ValueError when int() fails on a token. -/
def pcdProcessLine (h : PcdHeader) (raw : Line) : Except String (PcdHeader × Bool) :=
  let s := pyStrip raw
  let toks := pySplit s
  if startsWithL s ("VERSION".toList) then
    match toks.get? 1 with
    | none => .error "IndexError: list index out of range"
    | some v => .ok ({ h with version := some v }, false)
  else if startsWithL s ("FIELDS".toList) then
    .ok ({ h with fields := some (toks.drop 1) }, false)
  else if startsWithL s ("SIZE".toList) then
    match mapOpt pyInt (toks.drop 1) with
    | none => .error "ValueError: invalid literal for int()"
    | some xs => .ok ({ h with size := some xs }, false)
  else if startsWithL s ("TYPE".toList) then
    .ok ({ h with type := some (toks.drop 1) }, false)
  else if startsWithL s ("COUNT".toList) then
    match mapOpt pyInt (toks.drop 1) with
    | none => .error "ValueError: invalid literal for int()"
    | some xs => .ok ({ h with count := some xs }, false)
  else if startsWithL s ("WIDTH".toList) then
    match toks.get? 1 with
    | none => .error "IndexError: list index out of range"
    | some t =>
      match pyInt t with
      | none => .error "ValueError: invalid literal for int()"
      | some n => .ok ({ h with width := some n }, false)
  else if startsWithL s ("HEIGHT".toList) then
    match toks.get? 1 with
    | none => .error "IndexError: list index out of range"
    | some t =>
      match pyInt t with
      | none => .error "ValueError: invalid literal for int()"
      | some n => .ok ({ h with height := some n }, false)
  else if startsWithL s ("VIEWPOINT".toList) then
    match mapOpt pyFloat (toks.drop 1) with
    | none => .error "ValueError: could not convert string to float"
    | some xs => .ok ({ h with viewpoint := some xs }, false)
  else if startsWithL s ("POINTS".toList) then
    match toks.get? 1 with
    | none => .error "IndexError: list index out of range"
    | some t =>
      match pyInt t with
      | none => .error "ValueError: invalid literal for int()"
      | some n => .ok ({ h with points := some n }, false)
  else if startsWithL s ("DATA".toList) then
    match toks.get? 1 with
    | none => .error "IndexError: list index out of range"
    | some v => .ok ({ h with data := some v }, true)
  else .ok (h, false)

/-- The read_pcd header loop over the lines of the file.  Result none
means the loop consumed every line without breaking: in the source the
loop then reads empty strings at end of file forever and never exits
(see the step machine pcdStep and claim C10). -/
def pcdScanGo : PcdHeader → List Line → Option (Except String PcdHeader)
  | _, [] => none
  | h, l :: ls =>
    match pcdProcessLine h l with
    | .error e => some (.error e)
    | .ok (h', true) => some (.ok h')
    | .ok (h', false) => pcdScanGo h' ls

def pcdScan (lines : List Line) : Option (Except String PcdHeader) :=
  pcdScanGo emptyPcdHeader lines

/-- The ascii branch locates the data section again: index one past the
first line whose stripped form starts with DATA, defaulting to 0 as the
source initializes data_start_idx. -/
def findDataStart (i : Nat) : List Line → Nat
  | [] => 0
  | l :: ls =>
    if startsWithL (pyStrip l) ("DATA".toList) then i + 1 else findDataStart (i + 1) ls

/-- The ascii data loop of read_pcd: skip blank lines, float() every
token (a failure raises), keep the first three values of every line that
has at least three. -/
def pcdAsciiLines : List Line → Except String (List (List ℚ))
  | [] => .ok []
  | l :: ls =>
    let s := pyStrip l
    if s.isEmpty then pcdAsciiLines ls
    else
      match mapOpt pyFloat (pySplit s) with
      | none => .error "ValueError: could not convert string to float"
      | some vals =>
        match pcdAsciiLines ls with
        | .error e => .error e
        | .ok rest => .ok (if 3 ≤ vals.length then vals.take 3 :: rest else rest)

/-- The inner field loop of the binary branch: one little-endian float32
per field; a short read raises struct.error, which the bare except turns
into a break, leaving the cursor at end of file (hence the empty rest). -/
def readFieldsGo : Nat → List Nat → List ℚ → List ℚ × List Nat
  | 0, bytes, acc => (acc.reverse, bytes)
  | k + 1, bytes, acc =>
    if 4 ≤ bytes.length then
      readFieldsGo k (bytes.drop 4) (decLE (bytes.take 4) :: acc)
    else (acc.reverse, [])

/-- The outer record loop of the binary branch: num iterations; a record
with at least three decoded values contributes a point through the three
resolved indices (an out-of-range index raises IndexError, which nothing
catches). -/
def pcdBinGo (nf xI yI zI : Nat) : Nat → List Nat → Except String (List (List ℚ))
  | 0, _ => .ok []
  | n + 1, bytes =>
    let r := readFieldsGo nf bytes []
    if 3 ≤ r.1.length then
      match r.1.get? xI with
      | none => .error "IndexError: list index out of range"
      | some x =>
        match r.1.get? yI with
        | none => .error "IndexError: list index out of range"
        | some y =>
          match r.1.get? zI with
          | none => .error "IndexError: list index out of range"
          | some z =>
            match pcdBinGo nf xI yI zI n r.2 with
            | .error e => .error e
            | .ok pts => .ok ([x, y, z] :: pts)
    else pcdBinGo nf xI yI zI n r.2

/-- The binary branch of read_pcd after the header: resolve the x, y, z
indices (defaults 0, 1, 2 when the name is absent) and run the record
loop for the declared number of points. -/
def pcdBinaryDecode (h : PcdHeader) (payload : List Nat) : Except String (List (List ℚ)) :=
  let fields := h.fields.getD []
  let xI := fieldIdx fields ("x".toList) 0
  let yI := fieldIdx fields ("y".toList) 1
  let zI := fieldIdx fields ("z".toList) 2
  pcdBinGo fields.length xI yI zI (h.points.getD 0).toNat payload

/-- read_pcd.  lines are the text lines of the file (for a binary file,
the lines up to and including the DATA line); payload is the byte content
after the header, used only by the binary branch.  none models the
header loop never exiting. -/
def read_pcd (lines : List Line) (payload : List Nat) :
    Option (Except String (List (List ℚ))) :=
  match pcdScan lines with
  | none => none
  | some (.error e) => some (.error e)
  | some (.ok h) =>
    if pyUpper (h.data.getD []) = "ASCII".toList then
      some (pcdAsciiLines (lines.drop (findDataStart 0 lines)))
    else if pyUpper (h.data.getD []) = "BINARY".toList then
      some (pcdBinaryDecode h payload)
    else some (.error "ValueError: Unsupported PCD data format")

/-! ## KITTI reader (read_bin) -/

/-- np.fromfile with dtype float32: one float per complete 4-byte group,
a trailing partial group is dropped. -/
def floatsOfBytes : List Nat → List ℚ
  | b0 :: b1 :: b2 :: b3 :: rest => decLE [b0, b1, b2, b3] :: floatsOfBytes rest
  | [] => []
  | [_] => []
  | [_, _] => []
  | [_, _, _] => []

/-- reshape((-1, 4)) on the flat float list: rows of four (the caller
checks divisibility first, as reshape does). -/
def reshape4 : List ℚ → List (List ℚ)
  | a :: b :: c :: d :: rest => [a, b, c, d] :: reshape4 rest
  | [] => []
  | [_] => []
  | [_, _] => []
  | [_, _, _] => []

/-- read_bin: decode the whole file as float32, reshape into rows of
four, keep the first three columns; reshape raises when the float count
is not a multiple of four. -/
def read_bin (bytes : List Nat) : Except String (List (List ℚ)) :=
  let scan := floatsOfBytes bytes
  if scan.length % 4 = 0 then .ok ((reshape4 scan).map (List.take 3))
  else .error "ValueError: cannot reshape array"

/-! ## PLY reader (read_ply) -/

/-- Header state read_ply extracts from the collected header lines. -/
structure PlyMeta where
  count : ℤ := 0
  fmt : Line := "ascii".toList
  props : List Line := []
deriving DecidableEq

/-- The read_ply header loop: strip each line and collect it, stopping
after the end_header line; none models the loop never exiting because no
such line occurs (readline keeps returning the empty string, see
plyStep). -/
def plyScanGo (acc : List Line) : List Line → Option (List Line)
  | [] => none
  | l :: ls =>
    let s := pyStrip l
    if s = "end_header".toList then some (acc ++ [s])
    else plyScanGo (acc ++ [s]) ls

def plyScan (lines : List Line) : Option (List Line) := plyScanGo [] lines

/-- One header line of the PLY keyword pass: element vertex gives the
count, format the encoding, property float or property double appends the
last token to the tracked property list. -/
def plyProcessHeaderLine (m : PlyMeta) (l : Line) : Except String PlyMeta :=
  if startsWithL l ("element vertex".toList) then
    match (pySplit l).getLast? with
    | none => .error "IndexError: list index out of range"
    | some t =>
      match pyInt t with
      | none => .error "ValueError: invalid literal for int()"
      | some n => .ok { m with count := n }
  else if startsWithL l ("format".toList) then
    match (pySplit l).get? 1 with
    | none => .error "IndexError: list index out of range"
    | some f => .ok { m with fmt := f }
  else if startsWithL l ("property float".toList) || startsWithL l ("property double".toList) then
    match (pySplit l).getLast? with
    | none => .error "IndexError: list index out of range"
    | some p => .ok { m with props := m.props ++ [p] }
  else .ok m

def plyParseHeader (lines : List Line) : Except String PlyMeta :=
  lines.foldlM plyProcessHeaderLine {}

/-- Python values[i]: the token at index i, raising IndexError when the
index is out of range. -/
def getTok (toks : List Line) (i : Nat) : Except String Line :=
  match toks.get? i with
  | none => .error "IndexError: list index out of range"
  | some t => .ok t

/-- Python field_values[i] on decoded floats. -/
def getVal (vals : List ℚ) (i : Nat) : Except String ℚ :=
  match vals.get? i with
  | none => .error "IndexError: list index out of range"
  | some v => .ok v

/-- Python float() raising ValueError on an unparsable token. -/
def toFloat (t : Line) : Except String ℚ :=
  match pyFloat t with
  | none => .error "ValueError: could not convert string to float"
  | some x => .ok x

/-- The PLY ascii vertex loop: one line per declared vertex (an exhausted
file yields empty lines), split it, silently skip it when it has fewer
tokens than tracked properties, otherwise float() the three coordinate
tokens in order, any raise aborting the call. -/
def plyAsciiGo (np xI yI zI : Nat) : Nat → List Line → Except String (List (List ℚ))
  | 0, _ => .ok []
  | n + 1, ls =>
    let toks := pySplit (pyStrip (ls.headD []))
    if np ≤ toks.length then do
      let tx ← getTok toks xI
      let x ← toFloat tx
      let ty ← getTok toks yI
      let y ← toFloat ty
      let tz ← getTok toks zI
      let z ← toFloat tz
      let pts ← plyAsciiGo np xI yI zI n ls.tail
      pure ([x, y, z] :: pts)
    else plyAsciiGo np xI yI zI n ls.tail

/-- Endianness-directed float32 decode of a 4-byte group. -/
def decEnd (be : Bool) (bs : List Nat) : ℚ := if be then decBE bs else decLE bs

/-- The per-vertex property loop of the PLY binary branches: one 4-byte
float per tracked property; a short read raises struct.error, and nothing
catches it here, unlike the PCD binary loop. -/
def plyReadValsGo (be : Bool) : Nat → List Nat → Except String (List ℚ × List Nat)
  | 0, bytes => .ok ([], bytes)
  | k + 1, bytes =>
    if 4 ≤ bytes.length then
      match plyReadValsGo be k (bytes.drop 4) with
      | .error e => .error e
      | .ok (vs, rest) => .ok (decEnd be (bytes.take 4) :: vs, rest)
    else .error "struct.error: unpack requires a buffer of 4 bytes"

/-- The PLY binary vertex loop: read one float per tracked property (a
short read raises), then select the three coordinates. -/
def plyBinGo (be : Bool) (np xI yI zI : Nat) : Nat → List Nat → Except String (List (List ℚ))
  | 0, _ => .ok []
  | n + 1, bytes => do
    let vr ← plyReadValsGo be np bytes
    let x ← getVal vr.1 xI
    let y ← getVal vr.1 yI
    let z ← getVal vr.1 zI
    let pts ← plyBinGo be np xI yI zI n vr.2
    pure ([x, y, z] :: pts)

/-- The body of read_ply after the header has been scanned and parsed:
coordinate index resolution, then dispatch on the format string. -/
def plyDecode (m : PlyMeta) (payloadLines : List Line)
    (payloadBytes : List Nat) : Except String (List (List ℚ)) :=
  if "x".toList ∈ m.props ∧ "y".toList ∈ m.props ∧ "z".toList ∈ m.props then
    if m.fmt = "ascii".toList then
      plyAsciiGo m.props.length (idxOfGo ("x".toList) m.props)
        (idxOfGo ("y".toList) m.props) (idxOfGo ("z".toList) m.props)
        m.count.toNat payloadLines
    else if m.fmt = "binary_little_endian".toList then
      plyBinGo false m.props.length (idxOfGo ("x".toList) m.props)
        (idxOfGo ("y".toList) m.props) (idxOfGo ("z".toList) m.props)
        m.count.toNat payloadBytes
    else if m.fmt = "binary_big_endian".toList then
      plyBinGo true m.props.length (idxOfGo ("x".toList) m.props)
        (idxOfGo ("y".toList) m.props) (idxOfGo ("z".toList) m.props)
        m.count.toNat payloadBytes
    else .error "ValueError: Unsupported PLY format"
  else .error "ValueError: PLY file must contain x, y, z coordinates"

/-- read_ply.  headerLines are the text lines of the file; payloadLines
are the text lines after end_header (ascii branch); payloadBytes are the
bytes after end_header (binary branches).  none models the header loop
never exiting. -/
def read_ply (headerLines : List Line) (payloadLines : List Line)
    (payloadBytes : List Nat) : Option (Except String (List (List ℚ))) :=
  match plyScan headerLines with
  | none => none
  | some hls =>
    some (match plyParseHeader hls with
      | .error e => .error e
      | .ok m => plyDecode m payloadLines payloadBytes)

/-! ## Writer (write_pcd) -/

/-- The data line write_pcd emits for one point: the three coordinates in
the fixed six-decimal format, separated by single spaces. -/
def pcdDataLine (p : ℚ × ℚ × ℚ) : Line :=
  fmt6 p.1 ++ ' ' :: fmt6 p.2.1 ++ ' ' :: fmt6 p.2.2

/-- write_pcd: the comment line, the nine keyword lines with WIDTH and
POINTS set to the point count, then one data line per point. -/
def write_pcd (points : List (ℚ × ℚ × ℚ)) : List Line :=
  ("# .PCD v0.7 - Point Cloud Data file format".toList) ::
  ("VERSION 0.7".toList) ::
  ("FIELDS x y z".toList) ::
  ("SIZE 4 4 4".toList) ::
  ("TYPE F F F".toList) ::
  ("COUNT 1 1 1".toList) ::
  ("WIDTH ".toList ++ natToChars points.length) ::
  ("HEIGHT 1".toList) ::
  ("VIEWPOINT 0 0 0 1 0 0 0".toList) ::
  ("POINTS ".toList ++ natToChars points.length) ::
  ("DATA ascii".toList) ::
  points.map pcdDataLine

/-! ## Step machines for the two header loops (claim C10)

The while True loops of read_pcd and read_ply are rendered as explicit
step functions on the control state the loop condition can observe: the
unread part of the file plus, for PCD, the keyword dictionary.  The lists
of collected header lines (and for PCD the byte count) grow forever at
end of file but are never read back by the loop, so they are omitted
from the state.  readline at end of file returns the empty string, so a
running state with no lines left steps by processing an empty line. -/

inductive PcdScanState where
  | running (rest : List Line) (acc : PcdHeader)
  | done (acc : PcdHeader)
  | failed (e : String)
deriving DecidableEq

def pcdStep : PcdScanState → PcdScanState
  | .running [] acc =>
    match pcdProcessLine acc [] with
    | .error e => .failed e
    | .ok (acc', true) => .done acc'
    | .ok (acc', false) => .running [] acc'
  | .running (l :: ls) acc =>
    match pcdProcessLine acc l with
    | .error e => .failed e
    | .ok (acc', true) => .done acc'
    | .ok (acc', false) => .running ls acc'
  | s => s

/-- Has the PCD header loop exited (normally or by an exception). -/
def pcdHalted : PcdScanState → Bool
  | .running _ _ => false
  | _ => true

inductive PlyScanState where
  | running (rest : List Line)
  | done
deriving DecidableEq

def plyStep : PlyScanState → PlyScanState
  | .running [] => if pyStrip [] = "end_header".toList then .done else .running []
  | .running (l :: ls) =>
    if pyStrip l = "end_header".toList then .done else .running ls
  | .done => .done

def plyHalted : PlyScanState → Bool
  | .running _ => false
  | .done => true

/-! ## Statement-side definitions for individual claims -/

/-- Modelled from the claim wording for C4: for each non-blank payload
line take the first three whitespace-separated numeric values as the
point, regardless of any field declaration. -/
def pcdAsciiFirstThree : List Line → Except String (List (List ℚ))
  | [] => .ok []
  | l :: ls =>
    let s := pyStrip l
    if s.isEmpty then pcdAsciiFirstThree ls
    else
      match mapOpt pyFloat (pySplit s) with
      | none => .error "ValueError: could not convert string to float"
      | some vals =>
        match pcdAsciiFirstThree ls with
        | .error e => .error e
        | .ok rest => .ok (if 3 ≤ vals.length then vals.take 3 :: rest else rest)

/-- A PLY header whose vertex data uses the given format string, vertex
count and float property names (claim C9: the two encodings share this
header up to the format line). -/
def mkPlyHeader (fmt : Line) (n : Nat) (props : List Line) : List Line :=
  ("ply".toList) ::
  ("format ".toList ++ fmt ++ " 1.0".toList) ::
  ("element vertex ".toList ++ natToChars n) ::
  (props.map (fun p => "property float ".toList ++ p) ++ ["end_header".toList])

/-! ## Concrete files used by witnesses and counterexamples -/

/-- The concrete ascii PCD file of claim C4. -/
def c4Lines : List Line :=
  [("FIELDS x y z".toList), ("SIZE 4 4 4".toList), ("TYPE F F F".toList),
   ("COUNT 1 1 1".toList), ("WIDTH 2".toList), ("HEIGHT 1".toList),
   ("POINTS 2".toList), ("DATA ascii".toList),
   ("1.0 2.0 3.0".toList), ("4.0 5.0 6.0".toList)]

/-- A binary PCD file with four declared fields and two declared points
whose payload is cut short by four bytes: the final record still offers
three complete fields. -/
def c1xLines : List Line :=
  [("FIELDS x y z i".toList), ("SIZE 4 4 4 4".toList), ("TYPE F F F F".toList),
   ("COUNT 1 1 1 1".toList), ("WIDTH 2".toList), ("HEIGHT 1".toList),
   ("POINTS 2".toList), ("DATA binary".toList)]

def c1xPayload : List Nat := List.replicate 28 0

/-- A binary PCD file with three declared fields and two declared points,
payload cut short by four bytes. -/
def c1wLines : List Line :=
  [("FIELDS x y z".toList), ("SIZE 4 4 4".toList), ("TYPE F F F".toList),
   ("COUNT 1 1 1".toList), ("WIDTH 2".toList), ("HEIGHT 1".toList),
   ("POINTS 2".toList), ("DATA binary".toList)]

def c1wPayload : List Nat := List.replicate 20 0

/-- Header of a little-endian binary PLY file with two declared vertices
and properties x, y, z. -/
def c2xHeader : List Line :=
  [("ply".toList), ("format binary_little_endian 1.0".toList),
   ("element vertex 2".toList), ("property float x".toList),
   ("property float y".toList), ("property float z".toList),
   ("end_header".toList)]

/-- Its payload cut short by four bytes: the second vertex ends after two
of its three floats. -/
def c2xPayload : List Nat := List.replicate 20 0

/-- A PLY header that declares x and y but no z. -/
def c5wHeader : List Line :=
  [("ply".toList), ("format binary_little_endian 1.0".toList),
   ("element vertex 3".toList), ("property float x".toList),
   ("property float y".toList), ("end_header".toList)]

/-- An ascii PCD file declaring one point but carrying two payload
lines. -/
def c6xLines : List Line :=
  [("FIELDS x y z".toList), ("SIZE 4 4 4".toList), ("TYPE F F F".toList),
   ("COUNT 1 1 1".toList), ("WIDTH 1".toList), ("HEIGHT 1".toList),
   ("POINTS 1".toList), ("DATA ascii".toList),
   ("1.0 2.0 3.0".toList), ("4.0 5.0 6.0".toList)]

/-- A finite file in which neither sentinel line ever occurs. -/
def c10Bad : List Line := [("ply".toList), ("foo".toList)]

/-- The header the scan of c4Lines produces. -/
def c4Header : PcdHeader :=
  { fields := some [("x".toList), ("y".toList), ("z".toList)],
    size := some [4, 4, 4],
    type := some [("F".toList), ("F".toList), ("F".toList)],
    count := some [1, 1, 1],
    width := some 2, height := some 1, points := some 2,
    data := some ("ascii".toList) }

/-- The header the scan of c1xLines produces. -/
def c1xHeader : PcdHeader :=
  { fields := some [("x".toList), ("y".toList), ("z".toList), ("i".toList)],
    size := some [4, 4, 4, 4],
    type := some [("F".toList), ("F".toList), ("F".toList), ("F".toList)],
    count := some [1, 1, 1, 1],
    width := some 2, height := some 1, points := some 2,
    data := some ("binary".toList) }

/-- The header the scan of c1wLines produces. -/
def c1wHeader : PcdHeader :=
  { fields := some [("x".toList), ("y".toList), ("z".toList)],
    size := some [4, 4, 4],
    type := some [("F".toList), ("F".toList), ("F".toList)],
    count := some [1, 1, 1],
    width := some 2, height := some 1, points := some 2,
    data := some ("binary".toList) }

/-- The header the scan of c6xLines produces. -/
def c6xHeader : PcdHeader :=
  { fields := some [("x".toList), ("y".toList), ("z".toList)],
    size := some [4, 4, 4],
    type := some [("F".toList), ("F".toList), ("F".toList)],
    count := some [1, 1, 1],
    width := some 1, height := some 1, points := some 1,
    data := some ("ascii".toList) }

/-- The metadata parsed from the c5wHeader lines. -/
def c5wMeta : PlyMeta :=
  { count := 3, fmt := "binary_little_endian".toList,
    props := [("x".toList), ("y".toList)] }

/-- The metadata parsed from the c2xHeader lines. -/
def c2xMeta : PlyMeta :=
  { count := 2, fmt := "binary_little_endian".toList,
    props := [("x".toList), ("y".toList), ("z".toList)] }

/-- The header dictionary that scanning the writer output produces. -/
def writePcdHeader (N : Nat) : PcdHeader :=
  { version := some ("0.7".toList),
    fields := some [("x".toList), ("y".toList), ("z".toList)],
    size := some [4, 4, 4],
    type := some [("F".toList), ("F".toList), ("F".toList)],
    count := some [1, 1, 1],
    width := some (N : ℤ),
    height := some 1,
    viewpoint := some [0, 0, 0, 1, 0, 0, 0],
    points := some (N : ℤ),
    data := some ("ascii".toList) }

/-- The point the reader recovers after a write and read round trip: each
coordinate rounded to the nearest multiple of one millionth. -/
def apx6Point (p : ℚ × ℚ × ℚ) : List ℚ := [apx6 p.1, apx6 p.2.1, apx6 p.2.2]

/-! ## Lemma kit: characters, strip, split -/

set_option maxRecDepth 4000

theorem digitChar_toNat {d : Nat} (h : d < 10) : (digitChar d).toNat = 48 + d := by
  interval_cases d <;> decide

theorem digitChar_isDigit {d : Nat} (h : d < 10) : (digitChar d).isDigit = true := by
  interval_cases d <;> decide

theorem isDigit_not_ws {c : Char} (h : c.isDigit = true) : c.isWhitespace = false := by
  by_contra hw
  rw [Bool.not_eq_false] at hw
  have hws : c = ' ' ∨ c = '\t' ∨ c = '\x0d' ∨ c = '\n' := by
    revert hw
    simp [Char.isWhitespace]
    tauto
  rcases hws with rfl | rfl | rfl | rfl <;> exact absurd h (by decide)

theorem isDigit_ne {c : Char} (x : Char) (hx : x.isDigit = false) (h : c.isDigit = true) : c ≠ x := by
  intro e
  rw [e, hx] at h
  exact Bool.false_ne_true h

theorem dropWhile_head_not {p : Char → Bool} {c : Char} {cs : List Char}
    (h : p c = false) : (c :: cs).dropWhile p = c :: cs := by
  simp [List.dropWhile_cons, h]

theorem pyStrip_eq_self {cs : Line}
    (h1 : cs.head?.all (fun c => !c.isWhitespace) = true)
    (h2 : cs.getLast?.all (fun c => !c.isWhitespace) = true) : pyStrip cs = cs := by
  cases cs with
  | nil => rfl
  | cons c t =>
    have hc : c.isWhitespace = false := by
      simpa using h1
    unfold pyStrip
    rw [dropWhile_head_not hc]
    rcases hr : (c :: t).reverse with _ | ⟨d, rt⟩
    · simp at hr
    · have hd : d.isWhitespace = false := by
        have := List.head?_reverse (c :: t)
        rw [hr] at this
        simp at this
        rw [← this] at h2
        simpa using h2
      rw [dropWhile_head_not hd, ← hr, List.reverse_reverse]

theorem splitGo_cons_nonws {c : Char} {cs cur : List Char} (h : c.isWhitespace = false) :
    splitGo (c :: cs) cur = splitGo cs (c :: cur) := by
  simp [splitGo, h]

theorem splitGo_cons_ws {c : Char} {cs cur : List Char} (hws : c.isWhitespace = true)
    (h : cur ≠ []) : splitGo (c :: cs) cur = cur.reverse :: splitGo cs [] := by
  simp only [splitGo, hws, if_true]
  rw [if_neg (by simpa using h)]

theorem splitGo_nonws {a : List Char} (r cur : List Char)
    (h : ∀ c ∈ a, c.isWhitespace = false) :
    splitGo (a ++ r) cur = splitGo r (a.reverse ++ cur) := by
  induction a generalizing cur with
  | nil => simp
  | cons x xs ih =>
    have hx : x.isWhitespace = false := h x (by simp)
    rw [List.cons_append, splitGo_cons_nonws hx, ih (x :: cur) (fun c hc => h c (by simp [hc]))]
    simp

theorem splitGo_space {r cur : List Char} (h : cur ≠ []) :
    splitGo (' ' :: r) cur = cur.reverse :: splitGo r [] :=
  splitGo_cons_ws (by decide) h

theorem splitGo_nil {cur : List Char} (h : cur ≠ []) :
    splitGo [] cur = [cur.reverse] := by
  simp only [splitGo]
  rw [if_neg (by simpa using h)]

theorem pySplit_single {a : List Char} (ha : a ≠ [])
    (hn : ∀ c ∈ a, c.isWhitespace = false) : pySplit a = [a] := by
  have := splitGo_nonws [] [] hn
  simp at this
  unfold pySplit
  conv_lhs => rw [show a = a ++ [] by simp]
  rw [splitGo_nonws [] [] hn, splitGo_nil (by simpa using ha)]
  simp

theorem pySplit_pair {a b : List Char} (ha : a ≠ []) (hb : b ≠ [])
    (hna : ∀ c ∈ a, c.isWhitespace = false) (hnb : ∀ c ∈ b, c.isWhitespace = false) :
    pySplit (a ++ ' ' :: b) = [a, b] := by
  unfold pySplit
  rw [splitGo_nonws (' ' :: b) [] hna]
  simp only [List.append_nil]
  rw [splitGo_space (by simpa using ha)]
  simp only [List.reverse_reverse]
  have : splitGo b [] = pySplit b := rfl
  rw [this, pySplit_single hb hnb]

theorem pySplit_triple {a b c : List Char} (ha : a ≠ []) (hb : b ≠ []) (hc : c ≠ [])
    (hna : ∀ x ∈ a, x.isWhitespace = false) (hnb : ∀ x ∈ b, x.isWhitespace = false)
    (hnc : ∀ x ∈ c, x.isWhitespace = false) :
    pySplit (a ++ ' ' :: b ++ ' ' :: c) = [a, b, c] := by
  unfold pySplit
  rw [show a ++ ' ' :: b ++ ' ' :: c = a ++ ' ' :: (b ++ ' ' :: c) by simp]
  rw [splitGo_nonws (' ' :: (b ++ ' ' :: c)) [] hna]
  simp only [List.append_nil]
  rw [splitGo_space (by simpa using ha)]
  simp only [List.reverse_reverse]
  have : splitGo (b ++ ' ' :: c) [] = pySplit (b ++ ' ' :: c) := rfl
  rw [this, pySplit_pair hb hc hnb hnc]

/-! ## Lemma kit: decimal rendering and parsing -/

theorem natToCharsAux_acc (fuel : Nat) : ∀ (n : Nat) (acc : Line),
    natToCharsAux fuel n acc = natToCharsAux fuel n [] ++ acc := by
  induction fuel with
  | zero => intro n acc; rfl
  | succ f ih =>
    intro n acc
    by_cases h : n = 0
    · simp [natToCharsAux, h]
    · simp only [natToCharsAux, h, if_false]
      rw [ih (n / 10) (digitChar (n % 10) :: acc), ih (n / 10) [digitChar (n % 10)]]
      simp

theorem natToCharsAux_digits : ∀ (fuel n : Nat), n ≠ 0 → n ≤ fuel →
    natToCharsAux fuel n [] = ((Nat.digits 10 n).map digitChar).reverse := by
  intro fuel
  induction fuel with
  | zero => intro n h0 hle; omega
  | succ f ih =>
    intro n h0 hle
    simp only [natToCharsAux, h0, if_false]
    rw [natToCharsAux_acc]
    rw [Nat.digits_def' (by norm_num) (Nat.pos_of_ne_zero h0)]
    by_cases hq : n / 10 = 0
    · rw [hq]
      have : natToCharsAux f 0 [] = [] := by cases f <;> rfl
      rw [this]
      simp
    · rw [ih (n / 10) hq (by omega)]
      simp

theorem natToChars_eq (n : Nat) (h : n ≠ 0) :
    natToChars n = ((Nat.digits 10 n).map digitChar).reverse := by
  unfold natToChars
  rw [if_neg h]
  exact natToCharsAux_digits n n h le_rfl

theorem natToChars_mem {n : Nat} {c : Char} (h : c ∈ natToChars n) :
    ∃ d, d < 10 ∧ c = digitChar d := by
  by_cases h0 : n = 0
  · subst h0
    simp [natToChars] at h
    exact ⟨0, by norm_num, by rw [h]; rfl⟩
  · rw [natToChars_eq n h0] at h
    simp at h
    obtain ⟨d, hd, rfl⟩ := h
    exact ⟨d, Nat.digits_lt_base (by norm_num) hd, rfl⟩

theorem natToChars_isDigit {n : Nat} {c : Char} (h : c ∈ natToChars n) :
    c.isDigit = true := by
  obtain ⟨d, hd, rfl⟩ := natToChars_mem h
  exact digitChar_isDigit hd

theorem natToChars_not_ws {n : Nat} {c : Char} (h : c ∈ natToChars n) :
    c.isWhitespace = false :=
  isDigit_not_ws (natToChars_isDigit h)

theorem natToChars_ne_nil (n : Nat) : natToChars n ≠ [] := by
  by_cases h0 : n = 0
  · subst h0; decide
  · rw [natToChars_eq n h0]
    simp [Nat.digits_ne_nil_iff_ne_zero, h0]

theorem foldr_digits_ofDigits : ∀ (ds : List Nat), (∀ d ∈ ds, d < 10) →
    List.foldr (fun d a => 10 * a + d) 0 ds = Nat.ofDigits 10 ds := by
  intro ds
  induction ds with
  | nil => intro _; simp [Nat.ofDigits]
  | cons d t ih =>
    intro h
    simp only [List.foldr_cons, Nat.ofDigits_cons, ih (fun x hx => h x (by simp [hx]))]
    omega

theorem natVal_natToChars (n : Nat) : natVal (natToChars n) = n := by
  by_cases h0 : n = 0
  · subst h0; decide
  · rw [natToChars_eq n h0]
    unfold natVal
    rw [List.foldl_reverse]
    have hstep : ∀ (ds : List Nat), (∀ d ∈ ds, d < 10) →
        List.foldr (fun x y => 10 * y + (x.toNat - 48)) 0 (ds.map digitChar) =
        List.foldr (fun d a => 10 * a + d) 0 ds := by
      intro ds
      induction ds with
      | nil => intro _; simp
      | cons d t ih =>
        intro h
        simp only [List.map_cons, List.foldr_cons, ih (fun x hx => h x (by simp [hx]))]
        rw [digitChar_toNat (h d (by simp))]
        omega
    rw [hstep _ (fun d hd => Nat.digits_lt_base (by norm_num) hd),
      foldr_digits_ofDigits _ (fun d hd => Nat.digits_lt_base (by norm_num) hd),
      Nat.ofDigits_digits]

theorem natVal_zeros : ∀ (m : Nat) (cs : Line),
    natVal (List.replicate m '0' ++ cs) = natVal cs := by
  intro m
  induction m with
  | zero => intro cs; simp
  | succ k ih =>
    intro cs
    simp only [List.replicate_succ, List.cons_append]
    show natVal (List.replicate k '0' ++ cs) = natVal cs
    exact ih cs

theorem natVal_padZeros (k : Nat) (cs : Line) : natVal (padZeros k cs) = natVal cs :=
  natVal_zeros _ cs

theorem padZeros_mem {k : Nat} {cs : Line} {c : Char} (h : c ∈ padZeros k cs) :
    c = '0' ∨ c ∈ cs := by
  unfold padZeros at h
  rcases List.mem_append.mp h with h | h
  · exact Or.inl (List.eq_of_mem_replicate h)
  · exact Or.inr h

theorem natToChars_len_le (m : Nat) (h : m < 10 ^ 6) : (natToChars m).length ≤ 6 := by
  by_cases h0 : m = 0
  · subst h0; decide
  · rw [natToChars_eq m h0]
    simp only [List.length_reverse, List.length_map]
    rw [Nat.digits_len 10 m (by norm_num) h0]
    have := Nat.log_lt_of_lt_pow h0 h
    omega

theorem padZeros_len {cs : Line} (h : cs.length ≤ 6) : (padZeros 6 cs).length = 6 := by
  unfold padZeros
  simp
  omega

/-! ## Lemma kit: the six-decimal format round trip -/

theorem takeWhile_digits_dot (ip rest : Line) (h : ∀ c ∈ ip, c.isDigit = true) :
    (ip ++ '.' :: rest).takeWhile Char.isDigit = ip ∧
    (ip ++ '.' :: rest).dropWhile Char.isDigit = '.' :: rest := by
  induction ip with
  | nil => simp [List.takeWhile_cons, List.dropWhile_cons]
  | cons c t ih =>
    have hc : c.isDigit = true := h c (by simp)
    obtain ⟨h1, h2⟩ := ih (fun x hx => h x (by simp [hx]))
    constructor
    · rw [List.cons_append, List.takeWhile_cons, if_pos (by simp [hc]), h1]
    · rw [List.cons_append, List.dropWhile_cons, if_pos (by simp [hc]), h2]

theorem pyFloatMag_digits_dot (I F : Nat) (hF : F < 10 ^ 6) :
    pyFloatMag (natToChars I ++ '.' :: padZeros 6 (natToChars F)) =
      some ((I : ℚ) + (F : ℚ) / 10 ^ 6) := by
  obtain ⟨h1, h2⟩ := takeWhile_digits_dot (natToChars I) (padZeros 6 (natToChars F))
    (fun c hc => natToChars_isDigit hc)
  unfold pyFloatMag
  simp only [h1, h2]
  rw [if_true]
  have hall : (padZeros 6 (natToChars F)).all Char.isDigit = true := by
    rw [List.all_eq_true]
    intro c hc
    rcases padZeros_mem hc with rfl | hc'
    · decide
    · exact natToChars_isDigit hc'
  have hne : (natToChars I).isEmpty = false := by
    rw [List.isEmpty_eq_false_iff_exists_mem]
    rcases hnn : natToChars I with _ | ⟨c, t⟩
    · exact absurd hnn (natToChars_ne_nil I)
    · exact ⟨c, by simp⟩
  rw [if_pos (by simp [hall, hne])]
  rw [natVal_natToChars, natVal_padZeros, natVal_natToChars,
    padZeros_len (natToChars_len_le F hF)]

theorem pyFloat_cons (c : Char) (rest : Line) :
    pyFloat (c :: rest) =
      if c = '-' then (pyFloatMag rest).map (fun q => -q)
      else if c = '+' then pyFloatMag rest
      else pyFloatMag (c :: rest) := rfl

theorem pyFloat_fmt6 (q : ℚ) : pyFloat (fmt6 q) = some (apx6 q) := by
  unfold fmt6
  set n : ℤ := round (q * 1000000) with hn
  have hFlt : n.natAbs % 1000000 < 10 ^ 6 := by
    have := Nat.mod_lt n.natAbs (y := 1000000) (by norm_num)
    norm_num at this ⊢
    exact this
  have hmag := pyFloatMag_digits_dot (n.natAbs / 1000000) (n.natAbs % 1000000) hFlt
  have hval : ((n.natAbs / 1000000 : Nat) : ℚ) + ((n.natAbs % 1000000 : Nat) : ℚ) / 10 ^ 6 =
      ((n.natAbs : Nat) : ℚ) / 1000000 := by
    have hdm : 1000000 * (n.natAbs / 1000000) + n.natAbs % 1000000 = n.natAbs :=
      Nat.div_add_mod _ _
    have h2 : (1000000 : ℚ) * ((n.natAbs / 1000000 : Nat) : ℚ) +
        ((n.natAbs % 1000000 : Nat) : ℚ) = ((n.natAbs : Nat) : ℚ) := by
      exact_mod_cast congrArg (fun k : Nat => (k : ℚ)) hdm
    rw [← h2, show (10 : ℚ) ^ 6 = 1000000 by norm_num]
    ring
  by_cases hneg : n < 0
  · rw [if_pos hneg, pyFloat_cons, if_pos rfl, hmag]
    unfold apx6
    rw [← hn]
    simp only [Option.map_some', Option.some.injEq]
    rw [hval]
    have h1 : ((n.natAbs : Nat) : ℚ) = -(n : ℚ) := by
      rw [Int.cast_natAbs, abs_of_neg hneg]
      push_cast
      ring
    rw [h1]
    ring
  · rw [if_neg hneg]
    rcases hcs : natToChars (n.natAbs / 1000000) with _ | ⟨c, t⟩
    · exact absurd hcs (natToChars_ne_nil _)
    · have hcdig : c.isDigit = true := natToChars_isDigit (by rw [hcs]; simp)
      show pyFloat (c :: (t ++ _)) = _
      rw [pyFloat_cons, if_neg (isDigit_ne '-' (by decide) hcdig),
        if_neg (isDigit_ne '+' (by decide) hcdig)]
      rw [show c :: (t ++ '.' :: padZeros 6 (natToChars (n.natAbs % 1000000))) =
        natToChars (n.natAbs / 1000000) ++ '.' :: padZeros 6 (natToChars (n.natAbs % 1000000)) by
          rw [hcs]; simp]
      rw [hmag]
      unfold apx6
      rw [← hn]
      rw [Option.some.injEq, hval]
      have h1 : ((n.natAbs : Nat) : ℚ) = (n : ℚ) := by
        rw [Int.cast_natAbs, abs_of_nonneg (not_lt.mp hneg)]
      rw [h1]

theorem apx6_close (q : ℚ) : |apx6 q - q| ≤ 1 / 1000000 := by
  have h := abs_sub_round (q * 1000000)
  have heq : apx6 q - q = (((round (q * 1000000) : ℤ) : ℚ) - q * 1000000) / 1000000 := by
    unfold apx6
    ring
  rw [heq, abs_div, abs_of_pos (by norm_num : (0:ℚ) < 1000000)]
  rw [abs_sub_comm] at h
  calc |((round (q * 1000000) : ℤ) : ℚ) - q * 1000000| / 1000000
      ≤ (1 / 2) / 1000000 := by gcongr
    _ ≤ 1 / 1000000 := by norm_num

theorem fmt6_not_ws {q : ℚ} {c : Char} (h : c ∈ fmt6 q) : c.isWhitespace = false := by
  unfold fmt6 at h
  have hmag : ∀ x ∈ natToChars ((round (q * 1000000)).natAbs / 1000000) ++
      '.' :: padZeros 6 (natToChars ((round (q * 1000000)).natAbs % 1000000)),
      x.isWhitespace = false := by
    intro x hx
    rcases List.mem_append.mp hx with hx | hx
    · exact natToChars_not_ws hx
    · rcases List.mem_cons.mp hx with rfl | hx
      · decide
      · rcases padZeros_mem hx with rfl | hx'
        · decide
        · exact natToChars_not_ws hx'
  by_cases hneg : round (q * 1000000) < 0
  · rw [if_pos hneg] at h
    rcases List.mem_cons.mp h with rfl | h
    · decide
    · exact hmag c h
  · rw [if_neg hneg] at h
    exact hmag c h

theorem fmt6_ne_nil (q : ℚ) : fmt6 q ≠ [] := by
  unfold fmt6
  by_cases hneg : round (q * 1000000) < 0
  · rw [if_pos hneg]; simp
  · rw [if_neg hneg]
    intro h
    exact natToChars_ne_nil _ (List.append_eq_nil.mp h).1

/-! ## Lemma kit: scanning the writer output (claim C3) -/

theorem getLast?_append_ne {l1 l2 : Line} (h : l2 ≠ []) :
    (l1 ++ l2).getLast? = l2.getLast? := by
  rw [← List.head?_reverse, ← List.head?_reverse, List.reverse_append]
  rcases hr : l2.reverse with _ | ⟨c, t⟩
  · exact absurd (by simpa using hr) h
  · simp

theorem getLast?_mem_self : ∀ {cs : Line} {c : Char}, cs.getLast? = some c → c ∈ cs := by
  intro cs
  induction cs with
  | nil => intro c h; simp at h
  | cons x t ih =>
    intro c h
    rcases t with _ | ⟨y, u⟩
    · simp at h; simp [h]
    · rw [List.getLast?_cons_cons] at h
      exact List.mem_cons_of_mem x (ih h)

theorem pyStrip_append_tail {pre tail : Line} (hh : pre.head?.all (fun c => !c.isWhitespace) = true)
    (hne : tail ≠ []) (hpre : pre ≠ [])
    (htail : ∀ c ∈ tail, c.isWhitespace = false) :
    pyStrip (pre ++ tail) = pre ++ tail := by
  apply pyStrip_eq_self
  · rcases pre with _ | ⟨c, t⟩
    · exact absurd rfl hpre
    · simpa using hh
  · rw [getLast?_append_ne hne]
    rcases hg : tail.getLast? with _ | c
    · simp
    · simp [htail c (getLast?_mem_self hg)]

theorem pyInt_cons (c : Char) (rest : Line) :
    pyInt (c :: rest) =
      if c = '-' then (parseNatChars rest).map (fun n => -(n : ℤ))
      else if c = '+' then (parseNatChars rest).map (fun n => (n : ℤ))
      else (parseNatChars (c :: rest)).map (fun n => (n : ℤ)) := rfl

theorem pyInt_natToChars (N : Nat) : pyInt (natToChars N) = some (N : ℤ) := by
  rcases hcs : natToChars N with _ | ⟨c, t⟩
  · exact absurd hcs (natToChars_ne_nil N)
  · have hcdig : c.isDigit = true := natToChars_isDigit (by rw [hcs]; simp)
    have hall : (c :: t).all Char.isDigit = true := by
      rw [List.all_eq_true]
      intro x hx
      exact natToChars_isDigit (by rw [hcs]; exact hx)
    rw [pyInt_cons, if_neg (isDigit_ne '-' (by decide) hcdig),
      if_neg (isDigit_ne '+' (by decide) hcdig)]
    unfold parseNatChars
    rw [if_pos (by simp [hall])]
    rw [← hcs, natVal_natToChars]
    rfl

theorem pcdProcessLine_width (h : PcdHeader) (N : Nat) :
    pcdProcessLine h ("WIDTH ".toList ++ natToChars N) =
      .ok ({ h with width := some (N : ℤ) }, false) := by
  have hstrip : pyStrip ("WIDTH ".toList ++ natToChars N) = "WIDTH ".toList ++ natToChars N :=
    pyStrip_append_tail (by decide) (natToChars_ne_nil N) (by decide)
      (fun c hc => natToChars_not_ws hc)
  have hsplit : pySplit ("WIDTH ".toList ++ natToChars N) = [("WIDTH".toList), natToChars N] := by
    have he : "WIDTH ".toList ++ natToChars N = "WIDTH".toList ++ ' ' :: natToChars N := rfl
    rw [he]
    exact pySplit_pair (by decide) (natToChars_ne_nil N) (by decide)
      (fun c hc => natToChars_not_ws hc)
  simp only [pcdProcessLine, hstrip, hsplit]
  simp [startsWithL, pyInt_natToChars]

theorem pcdProcessLine_points (h : PcdHeader) (N : Nat) :
    pcdProcessLine h ("POINTS ".toList ++ natToChars N) =
      .ok ({ h with points := some (N : ℤ) }, false) := by
  have hstrip : pyStrip ("POINTS ".toList ++ natToChars N) = "POINTS ".toList ++ natToChars N :=
    pyStrip_append_tail (by decide) (natToChars_ne_nil N) (by decide)
      (fun c hc => natToChars_not_ws hc)
  have hsplit : pySplit ("POINTS ".toList ++ natToChars N) = [("POINTS".toList), natToChars N] := by
    have he : "POINTS ".toList ++ natToChars N = "POINTS".toList ++ ' ' :: natToChars N := rfl
    rw [he]
    exact pySplit_pair (by decide) (natToChars_ne_nil N) (by decide)
      (fun c hc => natToChars_not_ws hc)
  simp only [pcdProcessLine, hstrip, hsplit]
  simp [startsWithL, pyInt_natToChars]

theorem pcdScan_write (pts : List (ℚ × ℚ × ℚ)) :
    pcdScan (write_pcd pts) = some (.ok (writePcdHeader pts.length)) := by
  have h0 : ∀ h : PcdHeader,
      pcdProcessLine h ("# .PCD v0.7 - Point Cloud Data file format".toList) =
      .ok (h, false) := fun h => rfl
  have h1 : ∀ h : PcdHeader, pcdProcessLine h ("VERSION 0.7".toList) =
      .ok ({ h with version := some ("0.7".toList) }, false) := fun h => rfl
  have h2 : ∀ h : PcdHeader, pcdProcessLine h ("FIELDS x y z".toList) =
      .ok ({ h with fields := some [("x".toList), ("y".toList), ("z".toList)] }, false) :=
    fun h => rfl
  have h3 : ∀ h : PcdHeader, pcdProcessLine h ("SIZE 4 4 4".toList) =
      .ok ({ h with size := some [4, 4, 4] }, false) := fun h => rfl
  have h4 : ∀ h : PcdHeader, pcdProcessLine h ("TYPE F F F".toList) =
      .ok ({ h with type := some [("F".toList), ("F".toList), ("F".toList)] }, false) :=
    fun h => rfl
  have h5 : ∀ h : PcdHeader, pcdProcessLine h ("COUNT 1 1 1".toList) =
      .ok ({ h with count := some [1, 1, 1] }, false) := fun h => rfl
  have h7 : ∀ h : PcdHeader, pcdProcessLine h ("HEIGHT 1".toList) =
      .ok ({ h with height := some 1 }, false) := fun h => rfl
  have h8 : ∀ h : PcdHeader, pcdProcessLine h ("VIEWPOINT 0 0 0 1 0 0 0".toList) =
      .ok ({ h with viewpoint := some [0, 0, 0, 1, 0, 0, 0] }, false) := fun h => rfl
  have h10 : ∀ h : PcdHeader, pcdProcessLine h ("DATA ascii".toList) =
      .ok ({ h with data := some ("ascii".toList) }, true) := fun h => rfl
  simp only [write_pcd, pcdScan, pcdScanGo, h0, h1, h2, h3, h4, h5,
    pcdProcessLine_width, h7, h8, pcdProcessLine_points, h10]
  rfl

/-! ## Lemma kit: reading back the writer output (claim C3) -/

theorem pcdDataLine_eq (p : ℚ × ℚ × ℚ) :
    pcdDataLine p = fmt6 p.1 ++ ' ' :: fmt6 p.2.1 ++ ' ' :: fmt6 p.2.2 := rfl

theorem pyStrip_dataLine (p : ℚ × ℚ × ℚ) : pyStrip (pcdDataLine p) = pcdDataLine p := by
  apply pyStrip_eq_self
  · rw [pcdDataLine_eq]
    rcases hc : fmt6 p.1 with _ | ⟨c, t⟩
    · exact absurd hc (fmt6_ne_nil _)
    · have : c ∈ fmt6 p.1 := by rw [hc]; simp
      simp [fmt6_not_ws this]
  · rw [pcdDataLine_eq]
    rw [show fmt6 p.1 ++ ' ' :: fmt6 p.2.1 ++ ' ' :: fmt6 p.2.2 =
      (fmt6 p.1 ++ ' ' :: fmt6 p.2.1 ++ [' ']) ++ fmt6 p.2.2 by simp]
    rw [getLast?_append_ne (fmt6_ne_nil _)]
    rcases hg : (fmt6 p.2.2).getLast? with _ | c
    · simp
    · simp [fmt6_not_ws (getLast?_mem_self hg)]

theorem pySplit_dataLine (p : ℚ × ℚ × ℚ) :
    pySplit (pcdDataLine p) = [fmt6 p.1, fmt6 p.2.1, fmt6 p.2.2] := by
  rw [pcdDataLine_eq]
  exact pySplit_triple (fmt6_ne_nil _) (fmt6_ne_nil _) (fmt6_ne_nil _)
    (fun c hc => fmt6_not_ws hc) (fun c hc => fmt6_not_ws hc) (fun c hc => fmt6_not_ws hc)

theorem dataLine_ne_nil (p : ℚ × ℚ × ℚ) : pcdDataLine p ≠ [] := by
  rw [pcdDataLine_eq]
  intro h
  simp [List.append_eq_nil, fmt6_ne_nil] at h

theorem pcdAsciiLines_map (pts : List (ℚ × ℚ × ℚ)) :
    pcdAsciiLines (pts.map pcdDataLine) = .ok (pts.map apx6Point) := by
  induction pts with
  | nil => rfl
  | cons p ps ih =>
    simp only [List.map_cons, pcdAsciiLines, pyStrip_dataLine]
    rw [if_neg (by simp [dataLine_ne_nil p])]
    rw [pySplit_dataLine]
    have hmapM : mapOpt pyFloat [fmt6 p.1, fmt6 p.2.1, fmt6 p.2.2] =
        some [apx6 p.1, apx6 p.2.1, apx6 p.2.2] := by
      simp [mapOpt, pyFloat_fmt6]
    rw [hmapM, ih]
    rfl

theorem findDataStart_write (pts : List (ℚ × ℚ × ℚ)) :
    findDataStart 0 (write_pcd pts) = 11 := by
  have hwidth : startsWithL (pyStrip ("WIDTH ".toList ++ natToChars pts.length))
      ("DATA".toList) = false := by
    rw [pyStrip_append_tail (by decide) (natToChars_ne_nil _) (by decide)
      (fun c hc => natToChars_not_ws hc)]
    simp [startsWithL]
  have hpoints : startsWithL (pyStrip ("POINTS ".toList ++ natToChars pts.length))
      ("DATA".toList) = false := by
    rw [pyStrip_append_tail (by decide) (natToChars_ne_nil _) (by decide)
      (fun c hc => natToChars_not_ws hc)]
    simp [startsWithL]
  simp only [write_pcd, findDataStart, hwidth, hpoints]
  norm_num [pyStrip, startsWithL]
  decide

theorem read_pcd_ascii_branch (lines : List Line) (payload : List Nat) (h : PcdHeader)
    (hs : pcdScan lines = some (.ok h)) (hd : pyUpper (h.data.getD []) = "ASCII".toList) :
    read_pcd lines payload = some (pcdAsciiLines (lines.drop (findDataStart 0 lines))) := by
  unfold read_pcd
  rw [hs]
  simp [hd]

theorem read_pcd_write (pts : List (ℚ × ℚ × ℚ)) :
    read_pcd (write_pcd pts) [] = some (.ok (pts.map apx6Point)) := by
  rw [read_pcd_ascii_branch (write_pcd pts) [] (writePcdHeader pts.length)
    (pcdScan_write pts) rfl]
  rw [findDataStart_write]
  have hdrop : (write_pcd pts).drop 11 = pts.map pcdDataLine := rfl
  rw [hdrop, pcdAsciiLines_map]

/-! ## Lemma kit: the PCD binary record loop (claims C1, C2, C6) -/

theorem readFieldsGo_full : ∀ (k : Nat) (bytes : List Nat) (acc : List ℚ),
    4 * k ≤ bytes.length →
    ∃ vals, readFieldsGo k bytes acc = (vals, bytes.drop (4 * k)) ∧
      vals.length = acc.length + k := by
  intro k
  induction k with
  | zero => intro bytes acc _; exact ⟨acc.reverse, by simp [readFieldsGo]⟩
  | succ m ih =>
    intro bytes acc hlen
    have h4 : 4 ≤ bytes.length := by omega
    obtain ⟨vals, heq, hl⟩ := ih (bytes.drop 4) (decLE (bytes.take 4) :: acc)
      (by simp; omega)
    refine ⟨vals, ?_, by simp at hl; omega⟩
    simp only [readFieldsGo, if_pos h4, heq, List.drop_drop]
    congr 2
    omega

theorem readFieldsGo_short : ∀ (k : Nat) (bytes : List Nat) (acc : List ℚ),
    bytes.length < 4 * k →
    ∃ vals, readFieldsGo k bytes acc = (vals, []) ∧
      vals.length = acc.length + bytes.length / 4 := by
  intro k
  induction k with
  | zero => intro bytes acc h; omega
  | succ m ih =>
    intro bytes acc hlen
    by_cases h4 : 4 ≤ bytes.length
    · obtain ⟨vals, heq, hl⟩ := ih (bytes.drop 4) (decLE (bytes.take 4) :: acc)
        (by simp; omega)
      refine ⟨vals, ?_, ?_⟩
      · simp only [readFieldsGo, if_pos h4, heq]
      · simp at hl
        omega
    · refine ⟨acc.reverse, ?_, ?_⟩
      · simp only [readFieldsGo, if_neg h4]
      · simp
        omega

theorem pcdBinGo_le (nf xI yI zI : Nat) : ∀ (n : Nat) (bytes : List Nat) (l : List (List ℚ)),
    pcdBinGo nf xI yI zI n bytes = .ok l → l.length ≤ n := by
  intro n
  induction n with
  | zero =>
    intro bytes l h
    simp only [pcdBinGo] at h
    obtain rfl : ([] : List (List ℚ)) = l := Except.ok.inj h
    simp
  | succ m ih =>
    intro bytes l h
    simp only [pcdBinGo] at h
    by_cases h3 : 3 ≤ (readFieldsGo nf bytes []).1.length
    · rw [if_pos h3] at h
      rcases hx : (readFieldsGo nf bytes []).1.get? xI with _ | x <;> rw [hx] at h
      · exact Except.noConfusion h
      rcases hy : (readFieldsGo nf bytes []).1.get? yI with _ | y <;> rw [hy] at h
      · exact Except.noConfusion h
      rcases hz : (readFieldsGo nf bytes []).1.get? zI with _ | z <;> rw [hz] at h
      · exact Except.noConfusion h
      rcases hr : pcdBinGo nf xI yI zI m (readFieldsGo nf bytes []).2 with e | rest <;>
        rw [hr] at h
      · exact Except.noConfusion h
      obtain rfl : [x, y, z] :: rest = l := Except.ok.inj h
      have := ih _ _ hr
      simp only [List.length_cons]
      omega
    · rw [if_neg h3] at h
      have := ih _ _ h
      omega

theorem pcdBinGo_default_ok (nf : Nat) : ∀ (n : Nat) (bytes : List Nat),
    ∃ l, pcdBinGo nf 0 1 2 n bytes = .ok l := by
  intro n
  induction n with
  | zero => intro bytes; exact ⟨[], rfl⟩
  | succ m ih =>
    intro bytes
    obtain ⟨l, hl⟩ := ih (readFieldsGo nf bytes []).2
    by_cases h3 : 3 ≤ (readFieldsGo nf bytes []).1.length
    · have hx := List.get?_eq_get (show 0 < (readFieldsGo nf bytes []).1.length by omega)
      have hy := List.get?_eq_get (show 1 < (readFieldsGo nf bytes []).1.length by omega)
      have hz := List.get?_eq_get (show 2 < (readFieldsGo nf bytes []).1.length by omega)
      refine ⟨[(readFieldsGo nf bytes []).1.get ⟨0, by omega⟩,
        (readFieldsGo nf bytes []).1.get ⟨1, by omega⟩,
        (readFieldsGo nf bytes []).1.get ⟨2, by omega⟩] :: l, ?_⟩
      simp only [pcdBinGo, if_pos h3, hx, hy, hz, hl]
    · refine ⟨l, ?_⟩
      simp only [pcdBinGo, if_neg h3, hl]

theorem idxOfGo_lt_length {name : Line} : ∀ {fs : List Line}, name ∈ fs →
    idxOfGo name fs < fs.length := by
  intro fs
  induction fs with
  | nil => intro h; simp at h
  | cons f t ih =>
    intro h
    by_cases hf : f = name
    · simp [idxOfGo, hf]
    · rcases List.mem_cons.mp h with h1 | h1
      · exact absurd h1.symm hf
      · simp only [idxOfGo, hf, if_false, List.length_cons]
        have := ih h1
        omega

theorem fieldIdx_lt {fields : List Line} {name : Line} {dflt : Nat}
    (hd : dflt < fields.length) : fieldIdx fields name dflt < fields.length := by
  unfold fieldIdx
  by_cases hm : name ∈ fields
  · rw [if_pos hm]
    exact idxOfGo_lt_length hm
  · rw [if_neg hm]
    exact hd

theorem pcdBinGo_trunc (nf xI yI zI : Nat) (hF : 3 ≤ nf) (hx : xI < nf) (hy : yI < nf)
    (hz : zI < nf) : ∀ (n k : Nat) (bytes : List Nat), 0 < k → k < 4 * nf →
    4 * nf < k + 12 → bytes.length + k = 4 * nf * n → 1 ≤ n →
    ∃ l, pcdBinGo nf xI yI zI n bytes = .ok l ∧ l.length = n - 1 := by
  intro n
  induction n with
  | zero => intro k bytes _ _ _ _ h1; omega
  | succ m ih =>
    intro k bytes hk0 hk4 hk12 hlen _
    rcases Nat.eq_zero_or_pos m with rfl | hm
    · have hshort : bytes.length < 4 * nf := by omega
      obtain ⟨vals, heq, hl⟩ := readFieldsGo_short nf bytes [] hshort
      have hv3 : ¬ 3 ≤ vals.length := by
        rw [hl]
        simp only [List.length_nil]
        omega
      refine ⟨[], ?_, rfl⟩
      simp only [pcdBinGo, heq, hv3, if_false]
    · have hfull : 4 * nf ≤ bytes.length := by
        have : 4 * nf * (m + 1) = 4 * nf * m + 4 * nf := by ring
        nlinarith
      obtain ⟨vals, heq, hl⟩ := readFieldsGo_full nf bytes [] hfull
      simp only [List.length_nil, Nat.zero_add] at hl
      have hv3 : 3 ≤ vals.length := by omega
      have hgx := List.get?_eq_get (show xI < vals.length by omega)
      have hgy := List.get?_eq_get (show yI < vals.length by omega)
      have hgz := List.get?_eq_get (show zI < vals.length by omega)
      have hlen' : (bytes.drop (4 * nf)).length + k = 4 * nf * m := by
        simp only [List.length_drop]
        have : 4 * nf * (m + 1) = 4 * nf * m + 4 * nf := by ring
        omega
      obtain ⟨l, hrec, hll⟩ := ih k (bytes.drop (4 * nf)) hk0 hk4 hk12 hlen' hm
      refine ⟨[vals.get ⟨xI, by omega⟩, vals.get ⟨yI, by omega⟩, vals.get ⟨zI, by omega⟩] :: l,
        ?_, ?_⟩
      · simp only [pcdBinGo, heq, if_pos hv3, hgx, hgy, hgz, hrec]
      · simp only [List.length_cons, hll]
        omega

theorem read_pcd_binary_branch (lines : List Line) (payload : List Nat) (h : PcdHeader)
    (hs : pcdScan lines = some (.ok h)) (hd : pyUpper (h.data.getD []) = "BINARY".toList) :
    read_pcd lines payload = some (pcdBinaryDecode h payload) := by
  unfold read_pcd
  rw [hs]
  have hne : pyUpper (h.data.getD []) ≠ "ASCII".toList := by
    rw [hd]
    decide
  simp [hd, hne]

/-! ## Lemma kit: PLY loops (claims C2, C6, C9) -/

theorem exBind_ok {α β : Type} (a : α) (f : α → Except String β) :
    (Except.ok a >>= f) = f a := rfl

theorem exBind_error {α β : Type} (e : String) (f : α → Except String β) :
    ((Except.error e : Except String α) >>= f) = .error e := rfl

theorem exPure {α : Type} (a : α) : (pure a : Except String α) = .ok a := rfl

theorem getVal_some {vals : List ℚ} {i : Nat} {x : ℚ} (h : vals.get? i = some x) :
    getVal vals i = .ok x := by simp [getVal, ← List.get?_eq_getElem?, h]

theorem getVal_none {vals : List ℚ} {i : Nat} (h : vals.get? i = none) :
    getVal vals i = .error "IndexError: list index out of range" := by
  simp [getVal, ← List.get?_eq_getElem?, h]

theorem getTok_some {toks : List Line} {i : Nat} {t : Line} (h : toks.get? i = some t) :
    getTok toks i = .ok t := by simp [getTok, ← List.get?_eq_getElem?, h]

theorem toFloat_some {t : Line} {x : ℚ} (h : pyFloat t = some x) :
    toFloat t = .ok x := by simp [toFloat, h]

theorem plyReadValsGo_short (be : Bool) : ∀ (k : Nat) (bytes : List Nat),
    bytes.length < 4 * k → ∃ e, plyReadValsGo be k bytes = .error e := by
  intro k
  induction k with
  | zero => intro bytes h; omega
  | succ m ih =>
    intro bytes hlen
    by_cases h4 : 4 ≤ bytes.length
    · obtain ⟨e, he⟩ := ih (bytes.drop 4) (by simp; omega)
      refine ⟨e, ?_⟩
      simp only [plyReadValsGo, if_pos h4, he]
    · refine ⟨"struct.error: unpack requires a buffer of 4 bytes", ?_⟩
      simp only [plyReadValsGo, if_neg h4]

theorem plyReadValsGo_full (be : Bool) : ∀ (k : Nat) (bytes : List Nat),
    4 * k ≤ bytes.length →
    ∃ vals, plyReadValsGo be k bytes = .ok (vals, bytes.drop (4 * k)) ∧
      vals.length = k := by
  intro k
  induction k with
  | zero => intro bytes _; exact ⟨[], by simp [plyReadValsGo]⟩
  | succ m ih =>
    intro bytes hlen
    have h4 : 4 ≤ bytes.length := by omega
    obtain ⟨vals, heq, hl⟩ := ih (bytes.drop 4) (by simp; omega)
    refine ⟨decEnd be (bytes.take 4) :: vals, ?_, by simp [hl]⟩
    simp only [plyReadValsGo, if_pos h4, heq, List.drop_drop]
    congr 3
    omega

theorem plyBinGo_le (be : Bool) (np xI yI zI : Nat) :
    ∀ (n : Nat) (bytes : List Nat) (l : List (List ℚ)),
    plyBinGo be np xI yI zI n bytes = .ok l → l.length ≤ n := by
  intro n
  induction n with
  | zero =>
    intro bytes l h
    simp only [plyBinGo] at h
    obtain rfl : ([] : List (List ℚ)) = l := Except.ok.inj h
    simp
  | succ m ih =>
    intro bytes l h
    simp only [plyBinGo] at h
    rcases hv : plyReadValsGo be np bytes with e | vr
    · rw [hv, exBind_error] at h
      exact Except.noConfusion h
    simp only [hv, exBind_ok] at h
    rcases hx : vr.1.get? xI with _ | x
    · simp only [getVal_none hx, exBind_error] at h
      exact Except.noConfusion h
    simp only [getVal_some hx, exBind_ok] at h
    rcases hy : vr.1.get? yI with _ | y
    · simp only [getVal_none hy, exBind_error] at h
      exact Except.noConfusion h
    simp only [getVal_some hy, exBind_ok] at h
    rcases hz : vr.1.get? zI with _ | z
    · simp only [getVal_none hz, exBind_error] at h
      exact Except.noConfusion h
    simp only [getVal_some hz, exBind_ok] at h
    rcases hr : plyBinGo be np xI yI zI m vr.2 with e | pts
    · rw [hr, exBind_error] at h
      exact Except.noConfusion h
    rw [hr, exBind_ok] at h
    obtain rfl : [x, y, z] :: pts = l := Except.ok.inj h
    have := ih _ _ hr
    simp only [List.length_cons]
    omega

theorem plyBinGo_short (be : Bool) (np xI yI zI : Nat) :
    ∀ (n : Nat) (bytes : List Nat), bytes.length < 4 * np * n →
    ∃ e, plyBinGo be np xI yI zI n bytes = .error e := by
  intro n
  induction n with
  | zero => intro bytes h; simp at h
  | succ m ih =>
    intro bytes hlen
    by_cases hfull : 4 * np ≤ bytes.length
    · obtain ⟨vals, heq, hl⟩ := plyReadValsGo_full be np bytes hfull
      have hrest : (bytes.drop (4 * np)).length < 4 * np * m := by
        simp only [List.length_drop]
        have : 4 * np * (m + 1) = 4 * np * m + 4 * np := by ring
        omega
      rcases hx : vals.get? xI with _ | x
      · exact ⟨"IndexError: list index out of range",
          by simp only [plyBinGo, heq, exBind_ok, getVal_none hx, exBind_error]⟩
      rcases hy : vals.get? yI with _ | y
      · exact ⟨"IndexError: list index out of range",
          by simp only [plyBinGo, heq, exBind_ok, getVal_some hx,
            getVal_none hy, exBind_error]⟩
      rcases hz : vals.get? zI with _ | z
      · exact ⟨"IndexError: list index out of range",
          by simp only [plyBinGo, heq, exBind_ok, getVal_some hx,
            getVal_some hy, getVal_none hz, exBind_error]⟩
      obtain ⟨e, he⟩ := ih (bytes.drop (4 * np)) hrest
      exact ⟨e, by simp only [plyBinGo, heq, exBind_ok, getVal_some hx,
        getVal_some hy, getVal_some hz, he, exBind_error]⟩
    · obtain ⟨e, he⟩ := plyReadValsGo_short be np bytes (by omega)
      exact ⟨e, by simp only [plyBinGo, he, exBind_error]⟩

theorem plyAsciiGo_le (np xI yI zI : Nat) :
    ∀ (n : Nat) (ls : List Line) (l : List (List ℚ)),
    plyAsciiGo np xI yI zI n ls = .ok l → l.length ≤ n := by
  intro n
  induction n with
  | zero =>
    intro ls l h
    simp only [plyAsciiGo] at h
    obtain rfl : ([] : List (List ℚ)) = l := Except.ok.inj h
    simp
  | succ m ih =>
    intro ls l h
    simp only [plyAsciiGo] at h
    by_cases hnp : np ≤ (pySplit (pyStrip (ls.headD []))).length
    · rw [if_pos hnp] at h
      rcases hx : getTok (pySplit (pyStrip (ls.headD []))) xI with e | tx
      · rw [hx, exBind_error] at h
        exact Except.noConfusion h
      simp only [hx, exBind_ok] at h
      rcases hfx : toFloat tx with e | x
      · rw [hfx, exBind_error] at h
        exact Except.noConfusion h
      simp only [hfx, exBind_ok] at h
      rcases hy : getTok (pySplit (pyStrip (ls.headD []))) yI with e | ty
      · rw [hy, exBind_error] at h
        exact Except.noConfusion h
      simp only [hy, exBind_ok] at h
      rcases hfy : toFloat ty with e | y
      · rw [hfy, exBind_error] at h
        exact Except.noConfusion h
      simp only [hfy, exBind_ok] at h
      rcases hz : getTok (pySplit (pyStrip (ls.headD []))) zI with e | tz
      · rw [hz, exBind_error] at h
        exact Except.noConfusion h
      simp only [hz, exBind_ok] at h
      rcases hfz : toFloat tz with e | z
      · rw [hfz, exBind_error] at h
        exact Except.noConfusion h
      simp only [hfz, exBind_ok] at h
      rcases hr : plyAsciiGo np xI yI zI m ls.tail with e | pts
      · rw [hr, exBind_error] at h
        exact Except.noConfusion h
      rw [hr, exBind_ok] at h
      obtain rfl : [x, y, z] :: pts = l := Except.ok.inj h
      have := ih _ _ hr
      simp only [List.length_cons]
      omega
    · rw [if_neg hnp] at h
      have := ih _ _ h
      omega

/-! ## Lemma kit: endianness equivalence of the PLY binary decoders (C9) -/

theorem decBE_reverse {g : List Nat} (h : g.length = 4) : decBE g.reverse = decLE g := by
  rcases g with _ | ⟨a, g⟩
  · simp at h
  rcases g with _ | ⟨b, g⟩
  · simp at h
  rcases g with _ | ⟨c, g⟩
  · simp at h
  rcases g with _ | ⟨d, g⟩
  · simp at h
  rcases g with _ | ⟨e, g⟩
  · unfold decBE decLE bytesToNatBE bytesToNatLE
    simp only [List.reverse_cons, List.reverse_nil, List.nil_append, List.cons_append,
      List.append_nil, List.foldl_cons, List.foldl_nil, List.foldr_cons, List.foldr_nil]
    congr 1
    ring
  · simp at h

theorem plyReadValsGo_join (be : Bool) : ∀ (k : Nat) (gs : List (List Nat)),
    (∀ g ∈ gs, g.length = 4) → k ≤ gs.length →
    plyReadValsGo be k gs.flatten =
      .ok ((gs.take k).map (decEnd be), (gs.drop k).flatten) := by
  intro k
  induction k with
  | zero => intro gs _ _; simp [plyReadValsGo]
  | succ m ih =>
    intro gs h4 hle
    rcases gs with _ | ⟨g, gs⟩
    · simp at hle
    have hgl : g.length = 4 := h4 g (by simp)
    have hlen : 4 ≤ (g ++ gs.flatten).length := by
      simp [hgl]
    simp only [List.flatten_cons]
    simp only [plyReadValsGo, if_pos hlen]
    rw [show (4 : Nat) = g.length from hgl.symm, List.take_left, List.drop_left]
    rw [ih gs (fun x hx => h4 x (by simp [hx])) (by simpa using hle)]
    simp

theorem plyBinGo_join_eq (np xI yI zI : Nat) : ∀ (n : Nat) (gs : List (List Nat)),
    (∀ g ∈ gs, g.length = 4) → gs.length = np * n →
    plyBinGo false np xI yI zI n gs.flatten =
      plyBinGo true np xI yI zI n ((gs.map List.reverse).flatten) := by
  intro n
  induction n with
  | zero => intro gs _ _; rfl
  | succ m ih =>
    intro gs h4 hlen
    have hle : np ≤ gs.length := by
      rw [hlen]
      nlinarith
    have h4r : ∀ g ∈ gs.map List.reverse, g.length = 4 := by
      intro g hg
      obtain ⟨g0, hg0, rfl⟩ := List.mem_map.mp hg
      simp [h4 g0 hg0]
    have hler : np ≤ (gs.map List.reverse).length := by simpa using hle
    have hLE := plyReadValsGo_join false np gs h4 hle
    have hBE := plyReadValsGo_join true np (gs.map List.reverse) h4r hler
    have hvals : ((gs.map List.reverse).take np).map (decEnd true) =
        (gs.take np).map (decEnd false) := by
      rw [← List.map_take]
      rw [List.map_map]
      apply List.map_congr_left
      intro g hg
      have : g ∈ gs := List.mem_of_mem_take hg
      show decBE g.reverse = decLE g
      exact decBE_reverse (h4 g this)
    have hdrop : (gs.map List.reverse).drop np = (gs.drop np).map List.reverse :=
      (List.map_drop List.reverse gs np).symm
    simp only [plyBinGo, hLE, hBE, exBind_ok, hvals, hdrop]
    rcases hx : ((gs.take np).map (decEnd false)).get? xI with _ | x
    · rw [getVal_none hx, exBind_error, exBind_error]
    rw [getVal_some hx, exBind_ok, exBind_ok]
    rcases hy : ((gs.take np).map (decEnd false)).get? yI with _ | y
    · rw [getVal_none hy, exBind_error, exBind_error]
    rw [getVal_some hy, exBind_ok, exBind_ok]
    rcases hz : ((gs.take np).map (decEnd false)).get? zI with _ | z
    · rw [getVal_none hz, exBind_error, exBind_error]
    rw [getVal_some hz, exBind_ok, exBind_ok]
    have hrec := ih (gs.drop np) (fun g hg => h4 g (List.mem_of_mem_drop hg))
      (by simp [hlen]; ring_nf; omega)
    rw [hrec]

/-! ## Lemma kit: PLY header scanning and parsing (claims C5, C9) -/

theorem read_ply_ok {hl pls : List Line} {bs : List Nat} {hls : List Line} {m : PlyMeta}
    (h1 : plyScan hl = some hls) (h2 : plyParseHeader hls = .ok m) :
    read_ply hl pls bs = some (plyDecode m pls bs) := by
  unfold read_ply
  rw [h1]
  show some (match plyParseHeader hls with
    | Except.error e => Except.error e
    | Except.ok m => plyDecode m pls bs) = _
  rw [h2]

theorem plyDecode_missing {m : PlyMeta} {pls : List Line} {bs : List Nat}
    (h : ¬("x".toList ∈ m.props ∧ "y".toList ∈ m.props ∧ "z".toList ∈ m.props)) :
    plyDecode m pls bs = .error "ValueError: PLY file must contain x, y, z coordinates" := by
  unfold plyDecode
  rw [if_neg h]

theorem plyDecode_binLE {m : PlyMeta} {pls : List Line} {bs : List Nat}
    (hmem : "x".toList ∈ m.props ∧ "y".toList ∈ m.props ∧ "z".toList ∈ m.props)
    (hfmt : m.fmt = "binary_little_endian".toList) :
    plyDecode m pls bs = plyBinGo false m.props.length (idxOfGo ("x".toList) m.props)
      (idxOfGo ("y".toList) m.props) (idxOfGo ("z".toList) m.props) m.count.toNat bs := by
  unfold plyDecode
  rw [if_pos hmem, hfmt]
  simp

theorem plyDecode_binBE {m : PlyMeta} {pls : List Line} {bs : List Nat}
    (hmem : "x".toList ∈ m.props ∧ "y".toList ∈ m.props ∧ "z".toList ∈ m.props)
    (hfmt : m.fmt = "binary_big_endian".toList) :
    plyDecode m pls bs = plyBinGo true m.props.length (idxOfGo ("x".toList) m.props)
      (idxOfGo ("y".toList) m.props) (idxOfGo ("z".toList) m.props) m.count.toNat bs := by
  unfold plyDecode
  rw [if_pos hmem, hfmt]
  simp

theorem elemLine_ne_end (n : Nat) :
    ("element vertex ".toList ++ natToChars n) ≠ "end_header".toList := by
  intro h
  have h2 := congrArg (fun l : Line => l.get? 1) h
  simp at h2

theorem propLine_ne_end (p : Line) :
    ("property float ".toList ++ p) ≠ "end_header".toList := by
  intro h
  have h2 := congrArg (fun l : Line => l.get? 1) h
  simp at h2

theorem pyStrip_elemLine (n : Nat) :
    pyStrip ("element vertex ".toList ++ natToChars n) =
      "element vertex ".toList ++ natToChars n :=
  pyStrip_append_tail (by decide) (natToChars_ne_nil n) (by decide)
    (fun c hc => natToChars_not_ws hc)

theorem pyStrip_propLine {p : Line} (hne : p ≠ [])
    (hws : ∀ c ∈ p, c.isWhitespace = false) :
    pyStrip ("property float ".toList ++ p) = "property float ".toList ++ p :=
  pyStrip_append_tail (by decide) hne (by decide) hws

theorem plyScanGo_props : ∀ (props : List Line) (acc : List Line),
    (∀ p ∈ props, p ≠ [] ∧ ∀ c ∈ p, c.isWhitespace = false) →
    plyScanGo acc (props.map (fun p => "property float ".toList ++ p) ++
      [("end_header".toList)]) =
    some (acc ++ props.map (fun p => "property float ".toList ++ p) ++
      [("end_header".toList)]) := by
  intro props
  induction props with
  | nil =>
    intro acc _
    simp only [List.map_nil, List.nil_append, plyScanGo]
    rw [if_pos (by decide)]
    simp
    decide
  | cons p ps ih =>
    intro acc hp
    obtain ⟨hne, hws⟩ := hp p (by simp)
    simp only [List.map_cons, List.cons_append, plyScanGo,
      pyStrip_propLine hne hws]
    rw [if_neg (propLine_ne_end p)]
    simp only [List.append_eq]
    rw [ih (acc ++ [("property float ".toList ++ p)])
      (fun q hq => hp q (by simp [hq]))]
    simp

theorem mkPlyHeader_scan (fmt : Line) (n : Nat) (props : List Line)
    (hp : ∀ p ∈ props, p ≠ [] ∧ ∀ c ∈ p, c.isWhitespace = false)
    (hf1 : pyStrip ("format ".toList ++ fmt ++ " 1.0".toList) =
      "format ".toList ++ fmt ++ " 1.0".toList)
    (hf2 : ("format ".toList ++ fmt ++ " 1.0".toList) ≠ "end_header".toList) :
    plyScan (mkPlyHeader fmt n props) = some (mkPlyHeader fmt n props) := by
  have hply : pyStrip ("ply".toList) = "ply".toList := by decide
  unfold plyScan mkPlyHeader
  simp only [plyScanGo, hply, hf1, pyStrip_elemLine]
  rw [if_neg (show ¬(("ply".toList : Line) = "end_header".toList) by decide)]
  rw [if_neg hf2, if_neg (elemLine_ne_end n)]
  rw [plyScanGo_props props _ hp]
  simp

theorem plyProcess_elem (n : Nat) : ∀ m : PlyMeta,
    plyProcessHeaderLine m ("element vertex ".toList ++ natToChars n) =
      .ok { m with count := (n : ℤ) } := by
  intro m
  have hsplit : pySplit ("element vertex ".toList ++ natToChars n) =
      [("element".toList), ("vertex".toList), natToChars n] := by
    rw [show "element vertex ".toList ++ natToChars n =
      "element".toList ++ ' ' :: "vertex".toList ++ ' ' :: natToChars n from rfl]
    exact pySplit_triple (by decide) (by decide) (natToChars_ne_nil n)
      (by decide) (by decide) (fun c hc => natToChars_not_ws hc)
  simp only [plyProcessHeaderLine, hsplit]
  simp [startsWithL, pyInt_natToChars]

theorem plyProcess_prop {p : Line} (hne : p ≠ [])
    (hws : ∀ c ∈ p, c.isWhitespace = false) : ∀ m : PlyMeta,
    plyProcessHeaderLine m ("property float ".toList ++ p) =
      .ok { m with props := m.props ++ [p] } := by
  intro m
  have hsplit : pySplit ("property float ".toList ++ p) =
      [("property".toList), ("float".toList), p] := by
    rw [show "property float ".toList ++ p =
      "property".toList ++ ' ' :: "float".toList ++ ' ' :: p from rfl]
    exact pySplit_triple (by decide) (by decide) hne (by decide) (by decide) hws
  simp only [plyProcessHeaderLine, hsplit]
  simp [startsWithL]

theorem plyParse_props : ∀ (props : List Line) (m : PlyMeta),
    (∀ p ∈ props, p ≠ [] ∧ ∀ c ∈ p, c.isWhitespace = false) →
    List.foldlM plyProcessHeaderLine m
      (props.map (fun p => "property float ".toList ++ p) ++ [("end_header".toList)]) =
    .ok { m with props := m.props ++ props } := by
  intro props
  induction props with
  | nil =>
    intro m _
    have hEnd : plyProcessHeaderLine m ("end_header".toList) = .ok m := rfl
    simp only [List.map_nil, List.nil_append, List.foldlM_cons, List.foldlM_nil,
      hEnd, exBind_ok, List.append_nil]
    rfl
  | cons p ps ih =>
    intro m hp
    obtain ⟨hne, hws⟩ := hp p (by simp)
    simp only [List.map_cons, List.cons_append, List.foldlM_cons,
      plyProcess_prop hne hws, exBind_ok]
    rw [ih { m with props := m.props ++ [p] } (fun q hq => hp q (by simp [hq]))]
    simp

theorem mkPlyHeader_parse (fmt : Line) (n : Nat) (props : List Line)
    (hp : ∀ p ∈ props, p ≠ [] ∧ ∀ c ∈ p, c.isWhitespace = false)
    (hpf : ∀ m : PlyMeta, plyProcessHeaderLine m ("format ".toList ++ fmt ++ " 1.0".toList) =
      .ok { m with fmt := fmt }) :
    plyParseHeader (mkPlyHeader fmt n props) =
      .ok { count := (n : ℤ), fmt := fmt, props := props } := by
  have hPly : plyProcessHeaderLine {} ("ply".toList) = .ok {} := rfl
  unfold plyParseHeader mkPlyHeader
  simp only [List.foldlM_cons, hPly, exBind_ok, hpf, plyProcess_elem n]
  rw [plyParse_props props _ hp]
  simp

/-! ## Lemma kit: read_bin (claim C7) -/

theorem floatsOfBytes_row {r : List Nat} (h : r.length = 16) (rest : List Nat) :
    floatsOfBytes (r ++ rest) = decLE (r.take 4) :: decLE ((r.drop 4).take 4) ::
      decLE ((r.drop 8).take 4) :: decLE ((r.drop 12).take 4) :: floatsOfBytes rest := by
  rcases r with _ | ⟨a0, r⟩; · simp at h
  rcases r with _ | ⟨a1, r⟩; · simp at h
  rcases r with _ | ⟨a2, r⟩; · simp at h
  rcases r with _ | ⟨a3, r⟩; · simp at h
  rcases r with _ | ⟨a4, r⟩; · simp at h
  rcases r with _ | ⟨a5, r⟩; · simp at h
  rcases r with _ | ⟨a6, r⟩; · simp at h
  rcases r with _ | ⟨a7, r⟩; · simp at h
  rcases r with _ | ⟨a8, r⟩; · simp at h
  rcases r with _ | ⟨a9, r⟩; · simp at h
  rcases r with _ | ⟨a10, r⟩; · simp at h
  rcases r with _ | ⟨a11, r⟩; · simp at h
  rcases r with _ | ⟨a12, r⟩; · simp at h
  rcases r with _ | ⟨a13, r⟩; · simp at h
  rcases r with _ | ⟨a14, r⟩; · simp at h
  rcases r with _ | ⟨a15, r⟩; · simp at h
  rcases r with _ | ⟨a16, r⟩
  · rfl
  · simp at h

theorem reshape4_flatten : ∀ (chunks : List (List ℚ)), (∀ c ∈ chunks, c.length = 4) →
    reshape4 chunks.flatten = chunks := by
  intro chunks
  induction chunks with
  | nil => intro _; rfl
  | cons c cs ih =>
    intro h
    have hc : c.length = 4 := h c (by simp)
    rcases c with _ | ⟨a, c⟩; · simp at hc
    rcases c with _ | ⟨b, c⟩; · simp at hc
    rcases c with _ | ⟨d, c⟩; · simp at hc
    rcases c with _ | ⟨e, c⟩; · simp at hc
    rcases c with _ | ⟨f, c⟩
    · simp only [List.flatten_cons, List.cons_append, List.nil_append, reshape4]
      exact congrArg (fun t => [a, b, d, e] :: t) (ih (fun x hx => h x (by simp [hx])))
    · simp at hc

theorem floatsOfBytes_rows : ∀ (rows : List (List Nat)), (∀ r ∈ rows, r.length = 16) →
    floatsOfBytes rows.flatten =
      (rows.map (fun r => [decLE (r.take 4), decLE ((r.drop 4).take 4),
        decLE ((r.drop 8).take 4), decLE ((r.drop 12).take 4)])).flatten := by
  intro rows
  induction rows with
  | nil => intro _; rfl
  | cons r rs ih =>
    intro h
    simp only [List.flatten_cons]
    rw [floatsOfBytes_row (h r (by simp)), ih (fun x hx => h x (by simp [hx]))]
    simp

theorem flatten_len4 : ∀ (chunks : List (List ℚ)), (∀ c ∈ chunks, c.length = 4) →
    chunks.flatten.length = 4 * chunks.length := by
  intro chunks
  induction chunks with
  | nil => intro _; simp
  | cons c cs ih =>
    intro h
    simp [h c (by simp), ih (fun x hx => h x (by simp [hx]))]
    ring

theorem read_bin_rows (rows : List (List Nat)) (h : ∀ r ∈ rows, r.length = 16) :
    read_bin rows.flatten = .ok (rows.map (fun r =>
      [decLE (r.take 4), decLE ((r.drop 4).take 4), decLE ((r.drop 8).take 4)])) := by
  unfold read_bin
  rw [floatsOfBytes_rows rows h]
  have hc4 : ∀ c ∈ rows.map (fun r => [decLE (r.take 4), decLE ((r.drop 4).take 4),
      decLE ((r.drop 8).take 4), decLE ((r.drop 12).take 4)]), c.length = 4 := by
    intro c hc
    obtain ⟨r, _, rfl⟩ := List.mem_map.mp hc
    rfl
  rw [if_pos (by rw [flatten_len4 _ hc4]; omega)]
  rw [reshape4_flatten _ hc4]
  simp only [List.map_map]
  rfl

theorem floatsOfBytes_length : ∀ (bytes : List Nat),
    (floatsOfBytes bytes).length = bytes.length / 4 := by
  intro bytes
  induction bytes using floatsOfBytes.induct with
  | case1 b0 b1 b2 b3 rest ih =>
    simp only [floatsOfBytes, List.length_cons, ih]
    omega
  | case2 => rfl
  | case3 => simp [floatsOfBytes]
  | case4 => simp [floatsOfBytes]
  | case5 => simp [floatsOfBytes]

theorem read_bin_badlen {bytes : List Nat} (h : (bytes.length / 4) % 4 ≠ 0) :
    read_bin bytes = .error "ValueError: cannot reshape array" := by
  unfold read_bin
  rw [if_neg (by rw [floatsOfBytes_length]; exact h)]

/-! ## Lemma kit: header loop termination (claim C10) -/

theorem swl_imp_ne {s : Line} {p q : Char} {ps qs : Line}
    (h : startsWithL s (p :: ps) = true) (hpq : p ≠ q) :
    startsWithL s (q :: qs) = false := by
  cases s with
  | nil => exact absurd h (by simp [startsWithL])
  | cons c t =>
    have hc : c = p := by
      by_contra hne
      simp only [startsWithL, Bool.and_eq_true, beq_iff_eq] at h
      exact hne h.1
    subst hc
    simp only [startsWithL, Bool.and_eq_false_iff]
    left
    simp [hpq]

theorem pcdProcessLine_data (h : PcdHeader) (raw : Line)
    (hd : startsWithL (pyStrip raw) ("DATA".toList) = true) :
    (∃ e, pcdProcessLine h raw = .error e) ∨
    (∃ h' : PcdHeader, pcdProcessLine h raw = .ok (h', true)) := by
  have hV : startsWithL (pyStrip raw) ("VERSION".toList) = false := swl_imp_ne hd (by decide)
  have hF : startsWithL (pyStrip raw) ("FIELDS".toList) = false := swl_imp_ne hd (by decide)
  have hS : startsWithL (pyStrip raw) ("SIZE".toList) = false := swl_imp_ne hd (by decide)
  have hT : startsWithL (pyStrip raw) ("TYPE".toList) = false := swl_imp_ne hd (by decide)
  have hC : startsWithL (pyStrip raw) ("COUNT".toList) = false := swl_imp_ne hd (by decide)
  have hW : startsWithL (pyStrip raw) ("WIDTH".toList) = false := swl_imp_ne hd (by decide)
  have hH : startsWithL (pyStrip raw) ("HEIGHT".toList) = false := swl_imp_ne hd (by decide)
  have hVp : startsWithL (pyStrip raw) ("VIEWPOINT".toList) = false := swl_imp_ne hd (by decide)
  have hP : startsWithL (pyStrip raw) ("POINTS".toList) = false := swl_imp_ne hd (by decide)
  rcases hg : (pySplit (pyStrip raw)).get? 1 with _ | v
  · left
    refine ⟨"IndexError: list index out of range", ?_⟩
    simp only [pcdProcessLine]
    rw [hV, hF, hS, hT, hC, hW, hH, hVp, hP, hd, hg]
    simp
  · right
    refine ⟨{ h with data := some v }, ?_⟩
    simp only [pcdProcessLine]
    rw [hV, hF, hS, hT, hC, hW, hH, hVp, hP, hd, hg]
    simp

theorem pcdScanGo_isSome : ∀ (lines : List Line) (acc : PcdHeader),
    (∃ l ∈ lines, startsWithL (pyStrip l) ("DATA".toList) = true) →
    (pcdScanGo acc lines).isSome = true := by
  intro lines
  induction lines with
  | nil => intro acc h; simp at h
  | cons l ls ih =>
    intro acc hex
    rcases hp : pcdProcessLine acc l with e | ⟨h', b⟩
    · simp [pcdScanGo, hp]
    · cases b with
      | true => simp [pcdScanGo, hp]
      | false =>
        simp only [pcdScanGo, hp]
        obtain ⟨l0, hmem, hl0⟩ := hex
        rcases List.mem_cons.mp hmem with rfl | hmem'
        · rcases pcdProcessLine_data acc l0 hl0 with ⟨e, he⟩ | ⟨h2, he⟩
          · rw [hp] at he
            exact Except.noConfusion he
          · rw [hp] at he
            have := (Prod.mk.inj (Except.ok.inj he)).2
            exact absurd this (by decide)
        · exact ih h' ⟨l0, hmem', hl0⟩

theorem plyScanGo_isSome : ∀ (lines : List Line) (acc : List Line),
    (∃ l ∈ lines, pyStrip l = "end_header".toList) →
    (plyScanGo acc lines).isSome = true := by
  intro lines
  induction lines with
  | nil => intro acc h; simp at h
  | cons l ls ih =>
    intro acc hex
    by_cases hl : pyStrip l = "end_header".toList
    · simp [plyScanGo, hl]
    · simp only [plyScanGo, hl, if_false]
      obtain ⟨l0, hmem, hl0⟩ := hex
      rcases List.mem_cons.mp hmem with rfl | hmem'
      · exact absurd hl0 hl
      · exact ih _ ⟨l0, hmem', hl0⟩

/-! ## Lemma kit: the ascii branch decodes the first three values (C4) -/

theorem pcdAsciiLines_eq_spec : ∀ (ls : List Line),
    pcdAsciiLines ls = pcdAsciiFirstThree ls := by
  intro ls
  induction ls with
  | nil => rfl
  | cons l t ih =>
    simp only [pcdAsciiLines, pcdAsciiFirstThree]
    by_cases hs : (pyStrip l).isEmpty
    · rw [if_pos hs, if_pos hs]
      exact ih
    · rw [if_neg hs, if_neg hs]
      rcases hm : mapOpt pyFloat (pySplit (pyStrip l)) with _ | vals
      · rfl
      · rw [ih]

/-! ## The claims -/

/-- Claim C1 (counterexample): the claim as stated is false.  A binary PCD
file with four declared fields and POINTS 2 whose payload is cut short by
four bytes (a shortfall strictly between zero and one record) decodes to
2 records, not POINTS - 1 = 1: the truncated final record still offers
three complete fields, so the loop appends a point built from them. -/
theorem c1_counterexample :
    pcdScan c1xLines = some (.ok c1xHeader) ∧
    c1xHeader.points = some 2 ∧
    c1xHeader.fields = some [("x".toList), ("y".toList), ("z".toList), ("i".toList)] ∧
    c1xPayload.length + 4 = 4 * 4 * 2 ∧
    read_pcd c1xLines c1xPayload = some (.ok [[0, 0, 0], [0, 0, 0]]) := by
  decide

/-- Claim C1 (amended): for a binary PCD file with at least three declared
fields whose payload is cut short by k bytes, 0 < k < one record, read_pcd
returns exactly POINTS - 1 records and does not raise, provided the
truncated final record leaves fewer than three complete 4-byte field
values (equivalently one record is shorter than k + 12 bytes; in
particular always when exactly three fields are declared). -/
theorem c1_amended (lines : List Line) (payload : List Nat) (h : PcdHeader)
    (fields : List Line) (p : ℤ) (k : Nat)
    (hs : pcdScan lines = some (.ok h))
    (hd : pyUpper (h.data.getD []) = "BINARY".toList)
    (hf : h.fields = some fields)
    (hp : h.points = some p)
    (hF : 3 ≤ fields.length)
    (hk0 : 0 < k) (hk4 : k < 4 * fields.length) (hk12 : 4 * fields.length < k + 12)
    (hlen : payload.length + k = 4 * fields.length * p.toNat)
    (hp1 : 1 ≤ p.toNat) :
    ∃ l, read_pcd lines payload = some (.ok l) ∧ l.length = p.toNat - 1 := by
  rw [read_pcd_binary_branch lines payload h hs hd]
  simp only [pcdBinaryDecode, hf, hp, Option.getD_some]
  obtain ⟨l, hok, hlen'⟩ := pcdBinGo_trunc fields.length
    (fieldIdx fields ("x".toList) 0) (fieldIdx fields ("y".toList) 1)
    (fieldIdx fields ("z".toList) 2) hF
    (fieldIdx_lt (by omega)) (fieldIdx_lt (by omega)) (fieldIdx_lt (by omega))
    p.toNat k payload hk0 hk4 hk12 hlen hp1
  exact ⟨l, by rw [hok], hlen'⟩

theorem c1_witness : ∃ l, read_pcd c1wLines c1wPayload = some (.ok l) ∧
    l.length = (2 : ℤ).toNat - 1 :=
  c1_amended c1wLines c1wPayload c1wHeader
    [("x".toList), ("y".toList), ("z".toList)] 2 4
    (by decide) (by decide) (by decide) (by decide) (by decide) (by decide)
    (by decide) (by decide) (by decide) (by decide)

/-- Claim C2 (counterexample): the claim as stated is false.  The PLY
binary little-endian decoder raises struct.error on a payload that ends
mid-record (20 bytes for two 12-byte vertices) instead of returning the
points decoded so far. -/
theorem c2_counterexample :
    c2xPayload.length + 4 = 4 * 3 * 2 ∧
    read_ply c2xHeader [] c2xPayload =
      some (.error "struct.error: unpack requires a buffer of 4 bytes") := by
  decide

/-- Claim C2 (amended): only the PCD binary decoder never raises on
truncated payload data (shown here for the coordinate indices 0, 1, 2,
the layout every header with x, y, z leading produces, where no index can
fall outside a partially decoded record); the PLY binary decoders, which
have no exception handler, raise on every payload that ends mid-record. -/
theorem c2_amended :
    (∀ (nf n : Nat) (bytes : List Nat), ∃ l, pcdBinGo nf 0 1 2 n bytes = .ok l) ∧
    (∀ (be : Bool) (np xI yI zI n : Nat) (bytes : List Nat),
      bytes.length < 4 * np * n →
      ∃ e, plyBinGo be np xI yI zI n bytes = .error e) :=
  ⟨fun nf n bytes => pcdBinGo_default_ok nf n bytes,
   fun be np xI yI zI n bytes h => plyBinGo_short be np xI yI zI n bytes h⟩

theorem c2_witness :
    (∃ l, pcdBinGo 3 0 1 2 2 (List.replicate 20 0) = .ok l) ∧
    (∃ e, plyBinGo false 3 0 1 2 2 (List.replicate 20 0) = .error e) :=
  ⟨c2_amended.1 3 2 (List.replicate 20 0),
   c2_amended.2 false 3 0 1 2 2 (List.replicate 20 0) (by decide)⟩

/-- Claim C3: writing any point list with write_pcd and re-reading the
file with read_pcd succeeds and yields the same number of points, each
coordinate being the written six-decimal rounding of the original, which
differs from the original by at most one millionth. -/
theorem c3_round_trip (pts : List (ℚ × ℚ × ℚ)) :
    read_pcd (write_pcd pts) [] = some (.ok (pts.map apx6Point)) ∧
    (pts.map apx6Point).length = pts.length ∧
    (∀ q : ℚ, |apx6 q - q| ≤ 1 / 1000000) :=
  ⟨read_pcd_write pts, by simp, apx6_close⟩

/-- Claim C4: on every ascii-mode PCD file read_pcd decodes, for each
non-blank payload line after the first DATA line, the first three
whitespace-separated numeric values, independently of the declared field
order and of the binary payload argument (which does not occur in the
right-hand side). -/
theorem c4_first_three (lines : List Line) (payload : List Nat) (h : PcdHeader)
    (hs : pcdScan lines = some (.ok h))
    (hd : pyUpper (h.data.getD []) = "ASCII".toList) :
    read_pcd lines payload =
      some (pcdAsciiFirstThree (lines.drop (findDataStart 0 lines))) := by
  rw [read_pcd_ascii_branch lines payload h hs hd, pcdAsciiLines_eq_spec]

theorem c4_witness : read_pcd c4Lines [] = some (.ok [[1, 2, 3], [4, 5, 6]]) := by
  rw [c4_first_three c4Lines [] c4Header (by decide) (by decide)]
  decide

/-- Claim C5: a PLY header whose tracked float or double properties lack
any of x, y, z makes read_ply fail with the missing-coordinate ValueError
before any vertex payload is read: the result is this error for every
payload whatsoever. -/
theorem c5_missing_coordinate (hl : List Line) (hls : List Line) (m : PlyMeta)
    (h1 : plyScan hl = some hls) (h2 : plyParseHeader hls = .ok m)
    (hmiss : ¬("x".toList ∈ m.props ∧ "y".toList ∈ m.props ∧ "z".toList ∈ m.props)) :
    ∀ (payloadLines : List Line) (payloadBytes : List Nat),
      read_ply hl payloadLines payloadBytes =
        some (.error "ValueError: PLY file must contain x, y, z coordinates") := by
  intro pls bs
  rw [read_ply_ok h1 h2, plyDecode_missing hmiss]

theorem c5_witness : read_ply c5wHeader [] [] =
    some (.error "ValueError: PLY file must contain x, y, z coordinates") :=
  c5_missing_coordinate c5wHeader c5wHeader c5wMeta (by decide) (by decide)
    (by decide) [] []

/-- Claim C6 (counterexample): the claim as stated is false.  The PCD
ascii decoder ignores the declared POINTS count: a file declaring one
point but carrying two payload lines decodes to two points. -/
theorem c6_counterexample :
    pcdScan c6xLines = some (.ok c6xHeader) ∧
    c6xHeader.points = some 1 ∧
    read_pcd c6xLines [] = some (.ok [[1, 2, 3], [4, 5, 6]]) := by
  decide

/-- Claim C6 (amended): the returned point count never exceeds the
header-declared count for the PCD binary decoder and for every PLY
decoder; the PCD ascii decoder is the exception, it decodes every
non-blank payload line regardless of POINTS. -/
theorem c6_amended :
    (∀ (lines : List Line) (payload : List Nat) (h : PcdHeader) (l : List (List ℚ)),
      pcdScan lines = some (.ok h) → pyUpper (h.data.getD []) = "BINARY".toList →
      read_pcd lines payload = some (.ok l) → l.length ≤ (h.points.getD 0).toNat) ∧
    (∀ (hl pls : List Line) (bs : List Nat) (hls : List Line) (m : PlyMeta)
      (l : List (List ℚ)),
      plyScan hl = some hls → plyParseHeader hls = .ok m →
      read_ply hl pls bs = some (.ok l) → l.length ≤ m.count.toNat) := by
  constructor
  · intro lines payload h l hs hd hr
    rw [read_pcd_binary_branch lines payload h hs hd] at hr
    have hdec := Option.some.inj hr
    simp only [pcdBinaryDecode] at hdec
    exact pcdBinGo_le _ _ _ _ _ _ _ hdec
  · intro hl pls bs hls m l h1 h2 hr
    rw [read_ply_ok h1 h2] at hr
    have hdec := Option.some.inj hr
    unfold plyDecode at hdec
    by_cases hmem : "x".toList ∈ m.props ∧ "y".toList ∈ m.props ∧ "z".toList ∈ m.props
    · rw [if_pos hmem] at hdec
      by_cases ha : m.fmt = "ascii".toList
      · rw [if_pos ha] at hdec
        exact plyAsciiGo_le _ _ _ _ _ _ _ hdec
      · rw [if_neg ha] at hdec
        by_cases hle : m.fmt = "binary_little_endian".toList
        · rw [if_pos hle] at hdec
          exact plyBinGo_le _ _ _ _ _ _ _ _ hdec
        · rw [if_neg hle] at hdec
          by_cases hbe : m.fmt = "binary_big_endian".toList
          · rw [if_pos hbe] at hdec
            exact plyBinGo_le _ _ _ _ _ _ _ _ hdec
          · rw [if_neg hbe] at hdec
            exact Except.noConfusion hdec
    · rw [if_neg hmem] at hdec
      exact Except.noConfusion hdec

theorem c6_witness :
    ([[0, 0, 0]] : List (List ℚ)).length ≤ (c1wHeader.points.getD 0).toNat ∧
    ([[0, 0, 0], [0, 0, 0]] : List (List ℚ)).length ≤ c2xMeta.count.toNat :=
  ⟨c6_amended.1 c1wLines c1wPayload c1wHeader [[0, 0, 0]]
    (by decide) (by decide) (by decide),
   c6_amended.2 c2xHeader [] (List.replicate 24 0) c2xHeader c2xMeta
    [[0, 0, 0], [0, 0, 0]] (by decide) (by decide) (by decide)⟩

/-- Claim C7: a file of rows of sixteen bytes, that is of 4 times N
float32 values, decodes under read_bin to exactly N points, each the
first three of its row's four floats with the fourth discarded; and a
file whose float count is not a multiple of four makes read_bin fail with
the reshape error instead of returning points. -/
theorem c7_kitti (rows : List (List Nat)) (bytes : List Nat) :
    ((∀ r ∈ rows, r.length = 16) →
      read_bin rows.flatten = .ok (rows.map (fun r =>
        [decLE (r.take 4), decLE ((r.drop 4).take 4), decLE ((r.drop 8).take 4)])) ∧
      (rows.map (fun r =>
        [decLE (r.take 4), decLE ((r.drop 4).take 4),
          decLE ((r.drop 8).take 4)])).length = rows.length) ∧
    ((bytes.length / 4) % 4 ≠ 0 →
      read_bin bytes = .error "ValueError: cannot reshape array") :=
  ⟨fun h => ⟨read_bin_rows rows h, by simp⟩, fun h => read_bin_badlen h⟩

theorem c7_witness :
    (read_bin ([(List.replicate 16 0 : List Nat)].flatten) =
      .ok ([(List.replicate 16 0 : List Nat)].map (fun r =>
        [decLE (r.take 4), decLE ((r.drop 4).take 4), decLE ((r.drop 8).take 4)])) ∧
      ([(List.replicate 16 0 : List Nat)].map (fun r =>
        [decLE (r.take 4), decLE ((r.drop 4).take 4),
          decLE ((r.drop 8).take 4)])).length = 1) ∧
    read_bin (List.replicate 4 0) = .error "ValueError: cannot reshape array" :=
  ⟨(c7_kitti [List.replicate 16 0] (List.replicate 4 0)).1 (by decide),
   (c7_kitti [List.replicate 16 0] (List.replicate 4 0)).2 (by decide)⟩

/-- Claim C8 (counterexample): the claim as stated is false.  The writer
output for zero points has eleven lines, not nine, and its first line is
the comment line, not VERSION 0.7: the claim both misses the leading
comment line and counts the ten keyword lines as nine. -/
theorem c8_counterexample :
    (write_pcd []).length = 11 ∧
    ¬((write_pcd []).length = 9) ∧
    (write_pcd []).head? = some ("# .PCD v0.7 - Point Cloud Data file format".toList) ∧
    (write_pcd []).head? ≠ some ("VERSION 0.7".toList) := by
  decide

/-- Claim C8 (amended): write_pcd emits one comment line followed by the
ten keyword lines VERSION 0.7, FIELDS x y z, SIZE 4 4 4, TYPE F F F,
COUNT 1 1 1, WIDTH N, HEIGHT 1, VIEWPOINT 0 0 0 1 0 0 0, POINTS N,
DATA ascii, followed by exactly N data lines; each data line carries the
three coordinates in the fixed six-decimal format separated by single
spaces, so it splits into exactly those three tokens, and every formatted
coordinate ends in a dot followed by exactly six decimal digits. -/
theorem c8_amended (pts : List (ℚ × ℚ × ℚ)) :
    (write_pcd pts).length = 11 + pts.length ∧
    (write_pcd pts).take 11 =
      [("# .PCD v0.7 - Point Cloud Data file format".toList),
       ("VERSION 0.7".toList), ("FIELDS x y z".toList), ("SIZE 4 4 4".toList),
       ("TYPE F F F".toList), ("COUNT 1 1 1".toList),
       ("WIDTH ".toList ++ natToChars pts.length), ("HEIGHT 1".toList),
       ("VIEWPOINT 0 0 0 1 0 0 0".toList),
       ("POINTS ".toList ++ natToChars pts.length), ("DATA ascii".toList)] ∧
    (write_pcd pts).drop 11 = pts.map pcdDataLine ∧
    (∀ p ∈ pts, pySplit (pcdDataLine p) = [fmt6 p.1, fmt6 p.2.1, fmt6 p.2.2]) ∧
    (∀ q : ℚ, ∃ a b : Line, fmt6 q = a ++ '.' :: b ∧ b.length = 6 ∧
      ∀ c ∈ b, c.isDigit = true) := by
  refine ⟨by simp [write_pcd]; omega, rfl, rfl, fun p _ => pySplit_dataLine p, fun q => ?_⟩
  have hfr : (round (q * 1000000)).natAbs % 1000000 < 10 ^ 6 := by
    have := Nat.mod_lt (round (q * 1000000)).natAbs (y := 1000000) (by norm_num)
    norm_num at this ⊢
    exact this
  have hdig : ∀ c ∈ padZeros 6 (natToChars ((round (q * 1000000)).natAbs % 1000000)),
      c.isDigit = true := by
    intro c hc
    rcases padZeros_mem hc with rfl | hc'
    · decide
    · exact natToChars_isDigit hc'
  have hlen6 := padZeros_len (natToChars_len_le _ hfr)
  unfold fmt6
  by_cases hneg : round (q * 1000000) < 0
  · rw [if_pos hneg]
    exact ⟨'-' :: natToChars ((round (q * 1000000)).natAbs / 1000000),
      padZeros 6 (natToChars ((round (q * 1000000)).natAbs % 1000000)),
      by simp, hlen6, hdig⟩
  · rw [if_neg hneg]
    exact ⟨natToChars ((round (q * 1000000)).natAbs / 1000000),
      padZeros 6 (natToChars ((round (q * 1000000)).natAbs % 1000000)),
      rfl, hlen6, hdig⟩

theorem c8_witness :
    pySplit (pcdDataLine (1, 2, 3)) = [fmt6 1, fmt6 2, fmt6 3] ∧
    (write_pcd [((1 : ℚ), (2 : ℚ), (3 : ℚ))]).length = 11 + 1 :=
  ⟨(c8_amended [(1, 2, 3)]).2.2.2.1 (1, 2, 3) (by decide),
   (c8_amended [(1, 2, 3)]).1⟩

/-- Claim C9: the same vertex payload, given as 4-byte float groups,
encoded against the same header as binary little endian, and as binary
big endian with every 4-byte group reversed, decodes to the same result
under read_ply. -/
theorem c9_endianness (n : Nat) (props : List Line) (gs : List (List Nat))
    (hp : ∀ p ∈ props, p ≠ [] ∧ ∀ c ∈ p, c.isWhitespace = false)
    (h4 : ∀ g ∈ gs, g.length = 4)
    (hlen : gs.length = props.length * n) :
    read_ply (mkPlyHeader ("binary_little_endian".toList) n props) [] gs.flatten =
    read_ply (mkPlyHeader ("binary_big_endian".toList) n props) []
      ((gs.map List.reverse).flatten) := by
  have hscanLE := mkPlyHeader_scan ("binary_little_endian".toList) n props hp
    (by decide) (by decide)
  have hscanBE := mkPlyHeader_scan ("binary_big_endian".toList) n props hp
    (by decide) (by decide)
  have hparseLE := mkPlyHeader_parse ("binary_little_endian".toList) n props hp
    (fun m => rfl)
  have hparseBE := mkPlyHeader_parse ("binary_big_endian".toList) n props hp
    (fun m => rfl)
  rw [read_ply_ok hscanLE hparseLE, read_ply_ok hscanBE hparseBE]
  by_cases hmem : "x".toList ∈ props ∧ "y".toList ∈ props ∧ "z".toList ∈ props
  · rw [plyDecode_binLE hmem rfl, plyDecode_binBE hmem rfl]
    refine congrArg some ?_
    exact plyBinGo_join_eq props.length (idxOfGo ("x".toList) props)
      (idxOfGo ("y".toList) props) (idxOfGo ("z".toList) props) n gs h4 hlen
  · rw [plyDecode_missing hmem, plyDecode_missing hmem]

theorem c9_witness :
    read_ply (mkPlyHeader ("binary_little_endian".toList) 1
      [("x".toList), ("y".toList), ("z".toList)]) []
      (List.replicate 3 ([0, 0, 0, 0] : List Nat)).flatten =
    read_ply (mkPlyHeader ("binary_big_endian".toList) 1
      [("x".toList), ("y".toList), ("z".toList)]) []
      ((List.replicate 3 ([0, 0, 0, 0] : List Nat)).map List.reverse).flatten :=
  c9_endianness 1 [("x".toList), ("y".toList), ("z".toList)]
    (List.replicate 3 [0, 0, 0, 0]) (by decide) (by decide) (by decide)

/-- Claim C10 (counterexample): the claim as stated is false.  On a
finite file with no DATA line and no end_header line, both header loops
reach the end-of-file state after consuming every line and then step to
themselves forever without halting: readline keeps returning the empty
string, which matches no keyword and never breaks. -/
theorem c10_counterexample :
    pcdStep (pcdStep (.running c10Bad emptyPcdHeader)) =
      .running [] emptyPcdHeader ∧
    pcdStep (.running [] emptyPcdHeader) = .running [] emptyPcdHeader ∧
    pcdHalted (.running [] emptyPcdHeader) = false ∧
    plyStep (plyStep (.running c10Bad)) = .running [] ∧
    plyStep (.running ([] : List Line)) = .running [] ∧
    plyHalted (.running []) = false := by
  decide

/-- Claim C10 (amended): the header loops do terminate on every file that
contains their sentinel: the PCD scan halts whenever some line starts
with DATA after stripping (breaking there or raising on a missing token),
and the PLY scan halts whenever some line strips to end_header; on files
lacking the sentinel the loops spin at end of file (see the
counterexample). -/
theorem c10_amended :
    (∀ lines : List Line,
      (∃ l ∈ lines, startsWithL (pyStrip l) ("DATA".toList) = true) →
      (pcdScan lines).isSome = true) ∧
    (∀ lines : List Line, (∃ l ∈ lines, pyStrip l = "end_header".toList) →
      (plyScan lines).isSome = true) :=
  ⟨fun lines h => pcdScanGo_isSome lines emptyPcdHeader h,
   fun lines h => plyScanGo_isSome lines [] h⟩

theorem c10_witness :
    (pcdScan [("DATA ascii".toList)]).isSome = true ∧
    (plyScan [("end_header".toList)]).isSome = true :=
  ⟨c10_amended.1 [("DATA ascii".toList)] (by decide),
   c10_amended.2 [("end_header".toList)] (by decide)⟩
